import Mathlib

/-!
Verification of the bloodin audio playback engine.

This file gives a shallow embedding of the two core modules of the
repository — the LRU disk cache (`audio_cache.rs`) and the playback
actor (`audio_player.rs`) — and proves properties of the embedded
operations.  File-system and network effects are modelled by explicit
oracle inputs (`FetchEnv`, `PlayerEnv`); the set of files present on
disk is a `List String`; wall-clock instants are rationals.
-/

namespace Bloodin

/-! ## Disk cache (`audio_cache.rs`)

`CacheEntry`, `AudioCache` and the operations `get_cached_path`,
`update_access_time`, `ensure_cache_size` (here `ensure_cache_size_loop`),
`remove_entry` and `cache_audio` mirror the Rust definitions.  The
`HashMap<String, CacheEntry>` is embedded as an association list with
no-duplicate keys (invariant `Wf`), the `VecDeque<String>` as a list whose
head is the front of the deque. -/

structure CacheEntry where
  file_path : String
  last_accessed : Nat
  file_size : Nat
deriving DecidableEq

abbrev EntryList := List (String × CacheEntry)

/-- Embedding of `HashMap::get`. -/
def lookupEntry (es : EntryList) (id : String) : Option CacheEntry :=
  match es with
  | [] => none
  | (k, e) :: rest => if k = id then some e else lookupEntry rest id

/-- Embedding of `HashMap::remove` (drops the binding for `id`). -/
def eraseKey (es : EntryList) (id : String) : EntryList :=
  match es with
  | [] => []
  | (k, e) :: rest => if k = id then eraseKey rest id else (k, e) :: eraseKey rest id

/-- Embedding of `entry.last_accessed = now` through `HashMap::get_mut`. -/
def setAccessTime (es : EntryList) (id : String) (now : Nat) : EntryList :=
  es.map (fun p => if p.1 = id then (p.1, { p.2 with last_accessed := now }) else p)

structure AudioCache where
  entries : EntryList
  access_order : List String
  max_entries : Nat
deriving DecidableEq

/-- The `last_accessed` time recorded for `id`, `0` when absent. -/
def timeOf (es : EntryList) (id : String) : Nat :=
  match lookupEntry es id with
  | some e => e.last_accessed
  | none => 0

/-- `AudioCache::update_access_time`: bump the timestamp to `now`, move the
id to the most-recently-used end of the access order. -/
def update_access_time (c : AudioCache) (id : String) (now : Nat) : AudioCache :=
  { c with
    entries := setAccessTime c.entries id now
    access_order := c.access_order.erase id ++ [id] }

/-- `AudioCache::remove_entry`: drop the index binding, best-effort delete the
file, drop the id from the access order (first occurrence). -/
def remove_entry (c : AudioCache) (disk : List String) (id : String) :
    AudioCache × List String :=
  ({ c with entries := eraseKey c.entries id, access_order := c.access_order.erase id },
   match lookupEntry c.entries id with
   | some e => disk.erase e.file_path
   | none => disk)

/-- `AudioCache::get_cached_path`: a hit (entry present, file on disk) bumps
the access time and moves the id to the MRU end; a stale entry (file missing)
is removed; otherwise no change. -/
def get_cached_path (c : AudioCache) (disk : List String) (id : String) (now : Nat) :
    AudioCache × List String × Option String :=
  match lookupEntry c.entries id with
  | some entry =>
      if entry.file_path ∈ disk then
        (update_access_time c id now, disk, some entry.file_path)
      else
        let step := remove_entry c disk id
        (step.1, step.2, none)
  | none => (c, disk, none)

/-- `AudioCache::ensure_cache_size`: while the entry count is at or above
capacity, pop the front of the access order and remove that entry. -/
def ensure_cache_size_loop (c : AudioCache) (disk : List String) :
    AudioCache × List String :=
  if c.entries.length ≥ c.max_entries then
    match h : c.access_order with
    | [] => (c, disk)
    | oldest :: rest =>
      let step := remove_entry { c with access_order := rest } disk oldest
      ensure_cache_size_loop step.1 step.2
  else (c, disk)
termination_by c.access_order.length
decreasing_by
  simp only [remove_entry, h]
  exact Nat.lt_succ_of_le (List.Sublist.length_le (List.erase_sublist _ _))

/-- Oracle for the fallible steps of `cache_audio`: HTTP send, status check,
file create, body read, write, flush, and the size query. -/
structure FetchEnv where
  send_ok : Bool
  status_success : Bool
  create_ok : Bool
  body : Option (List Nat)
  write_ok : Bool
  flush_ok : Bool
  meta_size : Option Nat
deriving DecidableEq

/-- The download-and-register tail of `cache_audio` (everything after the
miss check and the eviction pass, from `self.client.get(...)` on): each
fallible step returns its error; on success the entry is inserted with the
file size and the current timestamp, and the id is pushed onto the MRU end
of the access order. -/
def cache_audio_download (c2 : AudioCache) (d2 : List String) (id : String)
    (now : Nat) (env : FetchEnv) : AudioCache × List String × Except String String :=
  if ¬ env.send_ok then (c2, d2, .error "request failed")
  else if ¬ env.status_success then (c2, d2, .error "Failed to download audio")
  else
    let file_path := id ++ ".audio"
    if ¬ env.create_ok then (c2, d2, .error "create failed")
    else
      let d3 := if file_path ∈ d2 then d2 else d2 ++ [file_path]
      match env.body with
      | none => (c2, d3, .error "bytes failed")
      | some _bytes =>
        if ¬ env.write_ok then (c2, d3, .error "write failed")
        else if ¬ env.flush_ok then (c2, d3, .error "flush failed")
        else
          match env.meta_size with
          | none => (c2, d3, .error "metadata failed")
          | some size =>
            ({ c2 with
                 entries := (id, ⟨file_path, now, size⟩) :: eraseKey c2.entries id
                 access_order := c2.access_order ++ [id] },
             d3, .ok file_path)

/-- `AudioCache::cache_audio`: early return on a cache hit; otherwise evict
down below capacity, then download and register (`cache_audio_download`). -/
def cache_audio (c : AudioCache) (disk : List String) (id : String) (now : Nat)
    (env : FetchEnv) : AudioCache × List String × Except String String :=
  match get_cached_path c disk id now with
  | (c1, d1, some cached_path) => (c1, d1, .ok cached_path)
  | (c1, d1, none) =>
    let step := ensure_cache_size_loop c1 d1
    cache_audio_download step.1 step.2 id now env

/-- `AudioCache::get_cache_stats`. -/
def get_cache_stats (c : AudioCache) : Nat × Nat :=
  (c.entries.length, (c.entries.map (fun p => p.2.file_size)).sum)

/-- Well-formedness of the cache: the invariants the Rust code maintains.
The index keys are unique, the access order has no duplicates, order and
index hold the same id set, and the access order is sorted by ascending
`last_accessed` (least-recently-used at the front). -/
def Wf (c : AudioCache) : Prop :=
  (c.entries.map Prod.fst).Nodup ∧
  c.access_order.Nodup ∧
  (∀ id ∈ c.access_order, id ∈ c.entries.map Prod.fst) ∧
  (∀ id ∈ c.entries.map Prod.fst, id ∈ c.access_order) ∧
  List.Sorted (· ≤ ·) (c.access_order.map (timeOf c.entries))

instance (c : AudioCache) : Decidable (Wf c) := by
  unfold Wf
  infer_instance

/-! ### Association-list lemmas -/

lemma lookupEntry_eq_none {es : EntryList} {id : String} :
    lookupEntry es id = none ↔ id ∉ es.map Prod.fst := by
  induction es with
  | nil => simp [lookupEntry]
  | cons p rest ih =>
    obtain ⟨k, e⟩ := p
    simp only [lookupEntry, List.map_cons, List.mem_cons]
    split
    · rename_i hk
      subst hk
      simp
    · rename_i hk
      simp only [ih]
      constructor
      · rintro hni (h1 | h2)
        · exact hk h1.symm
        · exact hni h2
      · intro hni h2
        exact hni (Or.inr h2)

lemma lookupEntry_mem {es : EntryList} {id : String} {e : CacheEntry}
    (h : lookupEntry es id = some e) : (id, e) ∈ es := by
  induction es with
  | nil => simp [lookupEntry] at h
  | cons p rest ih =>
    obtain ⟨k, e'⟩ := p
    simp only [lookupEntry] at h
    split at h
    · rename_i hk
      subst hk
      simp only [Option.some.injEq] at h
      subst h
      exact List.mem_cons_self _ _
    · exact List.mem_cons_of_mem _ (ih h)

lemma lookupEntry_isSome_of_mem {es : EntryList} {id : String}
    (h : id ∈ es.map Prod.fst) : ∃ e, lookupEntry es id = some e := by
  rcases he : lookupEntry es id with _ | e
  · exact absurd h (lookupEntry_eq_none.mp he)
  · exact ⟨e, rfl⟩

lemma lookupEntry_of_mem_nodup {es : EntryList} (hn : (es.map Prod.fst).Nodup)
    {id : String} {e : CacheEntry} (h : (id, e) ∈ es) : lookupEntry es id = some e := by
  induction es with
  | nil => simp at h
  | cons p rest ih =>
    obtain ⟨k, e'⟩ := p
    simp only [List.map_cons, List.nodup_cons] at hn
    rcases List.mem_cons.mp h with h1 | h2
    · rw [Prod.mk.injEq] at h1
      obtain ⟨hk, he⟩ := h1
      simp [lookupEntry, hk.symm, he]
    · have hkne : k ≠ id := by
        intro hk
        subst hk
        exact hn.1 (List.mem_map.mpr ⟨(k, e), h2, rfl⟩)
      simp [lookupEntry, hkne, ih hn.2 h2]

lemma eraseKey_sublist (es : EntryList) (id : String) : List.Sublist (eraseKey es id) es := by
  induction es with
  | nil => simp [eraseKey]
  | cons p rest ih =>
    obtain ⟨k, e⟩ := p
    simp only [eraseKey]
    split
    · exact ih.cons _
    · exact ih.cons₂ _

lemma mem_keys_eraseKey {es : EntryList} {id a : String} :
    a ∈ (eraseKey es id).map Prod.fst ↔ a ≠ id ∧ a ∈ es.map Prod.fst := by
  induction es with
  | nil => simp [eraseKey]
  | cons p rest ih =>
    obtain ⟨k, e⟩ := p
    simp only [eraseKey]
    split
    · rename_i hk
      subst hk
      simp only [List.map_cons, List.mem_cons, ih]
      constructor
      · rintro ⟨h1, h2⟩
        exact ⟨h1, Or.inr h2⟩
      · rintro ⟨h1, h2 | h3⟩
        · exact absurd h2 h1
        · exact ⟨h1, h3⟩
    · rename_i hk
      simp only [List.map_cons, List.mem_cons, ih]
      constructor
      · rintro (h1 | ⟨h2, h3⟩)
        · subst h1
          exact ⟨hk, Or.inl rfl⟩
        · exact ⟨h2, Or.inr h3⟩
      · rintro ⟨h1, h2 | h3⟩
        · exact Or.inl h2
        · exact Or.inr ⟨h1, h3⟩

lemma eraseKey_of_not_mem {es : EntryList} {id : String}
    (h : id ∉ es.map Prod.fst) : eraseKey es id = es := by
  induction es with
  | nil => rfl
  | cons p rest ih =>
    obtain ⟨k, e⟩ := p
    simp only [List.map_cons, List.mem_cons] at h
    push_neg at h
    simp [eraseKey, Ne.symm h.1, ih h.2]

lemma length_eraseKey_of_mem {es : EntryList} (hn : (es.map Prod.fst).Nodup)
    {id : String} (h : id ∈ es.map Prod.fst) :
    (eraseKey es id).length + 1 = es.length := by
  induction es with
  | nil => simp at h
  | cons p rest ih =>
    obtain ⟨k, e⟩ := p
    simp only [List.map_cons, List.nodup_cons] at hn
    simp only [List.map_cons, List.mem_cons] at h
    simp only [eraseKey]
    split
    · rename_i hk
      subst hk
      rw [eraseKey_of_not_mem hn.1]
      simp
    · rename_i hk
      rcases h with h1 | h2
      · exact absurd h1.symm hk
      · simp only [List.length_cons]
        rw [← ih hn.2 h2]

lemma lookupEntry_eraseKey_ne {es : EntryList} {id a : String} (h : a ≠ id) :
    lookupEntry (eraseKey es id) a = lookupEntry es a := by
  induction es with
  | nil => rfl
  | cons p rest ih =>
    obtain ⟨k, e⟩ := p
    simp only [eraseKey]
    split
    · rename_i hk
      subst hk
      rw [ih]
      simp [lookupEntry, Ne.symm h]
    · simp only [lookupEntry]
      split
      · rfl
      · exact ih

lemma keys_setAccessTime (es : EntryList) (id : String) (now : Nat) :
    (setAccessTime es id now).map Prod.fst = es.map Prod.fst := by
  induction es with
  | nil => rfl
  | cons p rest ih =>
    obtain ⟨k, e⟩ := p
    simp only [setAccessTime, List.map_cons] at ih ⊢
    split
    · simp [ih]
    · simp [ih]

lemma setAccessTime_cons (k : String) (e : CacheEntry) (rest : EntryList)
    (id : String) (now : Nat) :
    setAccessTime ((k, e) :: rest) id now =
      (if k = id then (k, { e with last_accessed := now }) else (k, e)) ::
        setAccessTime rest id now := by
  simp [setAccessTime]

lemma lookupEntry_setAccessTime_ne {es : EntryList} {id a : String} {now : Nat}
    (h : a ≠ id) :
    lookupEntry (setAccessTime es id now) a = lookupEntry es a := by
  induction es with
  | nil => rfl
  | cons p rest ih =>
    obtain ⟨k, e⟩ := p
    rw [setAccessTime_cons]
    by_cases hk : k = id
    · rw [if_pos hk]
      subst hk
      simp only [lookupEntry, if_neg (fun hka : k = a => h hka.symm)]
      exact ih
    · rw [if_neg hk]
      simp only [lookupEntry]
      split
      · rfl
      · exact ih

lemma lookupEntry_setAccessTime_self {es : EntryList} {id : String} {e : CacheEntry}
    {now : Nat} (h : lookupEntry es id = some e) :
    lookupEntry (setAccessTime es id now) id = some { e with last_accessed := now } := by
  induction es with
  | nil => simp [lookupEntry] at h
  | cons p rest ih =>
    obtain ⟨k, e'⟩ := p
    rw [setAccessTime_cons]
    by_cases hk : k = id
    · rw [if_pos hk]
      subst hk
      simp only [lookupEntry, if_true, eq_self_iff_true, Option.some.injEq] at h ⊢
      subst h
      rfl
    · rw [if_neg hk]
      simp only [lookupEntry, if_neg hk] at h ⊢
      exact ih h

lemma length_setAccessTime (es : EntryList) (id : String) (now : Nat) :
    (setAccessTime es id now).length = es.length :=
  List.length_map _ _

lemma timeOf_eraseKey_ne {es : EntryList} {id a : String} (h : a ≠ id) :
    timeOf (eraseKey es id) a = timeOf es a := by
  simp [timeOf, lookupEntry_eraseKey_ne h]

lemma timeOf_setAccessTime_ne {es : EntryList} {id a : String} {now : Nat}
    (h : a ≠ id) :
    timeOf (setAccessTime es id now) a = timeOf es a := by
  simp [timeOf, lookupEntry_setAccessTime_ne h]

lemma timeOf_cons_ne {es : EntryList} {id a : String} {e : CacheEntry} (h : a ≠ id) :
    timeOf ((id, e) :: es) a = timeOf es a := by
  simp [timeOf, lookupEntry, Ne.symm h]

lemma timeOf_bound {es : EntryList} {now : Nat}
    (hb : ∀ p ∈ es, p.2.last_accessed ≤ now)
    {a : String} (ha : a ∈ es.map Prod.fst) : timeOf es a ≤ now := by
  obtain ⟨e, he⟩ := lookupEntry_isSome_of_mem ha
  rw [timeOf, he]
  exact hb _ (lookupEntry_mem he)

lemma setAccessTime_bound {es : EntryList} {id : String} {now : Nat}
    (hb : ∀ p ∈ es, p.2.last_accessed ≤ now) :
    ∀ p ∈ setAccessTime es id now, p.2.last_accessed ≤ now := by
  intro p hp
  simp only [setAccessTime, List.mem_map] at hp
  obtain ⟨q, hq, hqe⟩ := hp
  subst hqe
  split
  · simp
  · exact hb _ hq

/-! ### Cache invariant preservation -/

lemma timeOf_eq_of_lookup {es : EntryList} {id : String} {e : CacheEntry}
    (h : lookupEntry es id = some e) : timeOf es id = e.last_accessed := by
  unfold timeOf
  rw [h]

lemma sorted_append_singleton {l : List Nat} {x : Nat}
    (h1 : List.Sorted (· ≤ ·) l) (h2 : ∀ y ∈ l, y ≤ x) :
    List.Sorted (· ≤ ·) (l ++ [x]) := by
  unfold List.Sorted at h1 ⊢
  rw [List.pairwise_append]
  refine ⟨h1, List.pairwise_singleton _ _, ?_⟩
  intro a ha b hb
  rw [List.mem_singleton] at hb
  subst hb
  exact h2 a ha

/-- Under `Wf`, the id at the front of the access order carries the oldest
access timestamp among all current entries. -/
lemma wf_front_oldest {c : AudioCache} (hwf : Wf c) {oldest : String}
    {rest : List String} (h : c.access_order = oldest :: rest) :
    ∀ p ∈ c.entries, timeOf c.entries oldest ≤ p.2.last_accessed := by
  obtain ⟨hnk, hno, hs1, hs2, hsort⟩ := hwf
  rintro ⟨k, e⟩ hp
  have hpk : k ∈ c.entries.map Prod.fst := List.mem_map.mpr ⟨(k, e), hp, rfl⟩
  have hpo : k ∈ c.access_order := hs2 _ hpk
  have hlook : lookupEntry c.entries k = some e := lookupEntry_of_mem_nodup hnk hp
  rw [h] at hpo hsort
  rw [List.map_cons] at hsort
  rcases List.mem_cons.mp hpo with h1 | h2
  · subst h1
    rw [timeOf_eq_of_lookup hlook]
  · have hmem : timeOf c.entries k ∈ rest.map (timeOf c.entries) :=
      List.mem_map.mpr ⟨k, h2, rfl⟩
    have hle := (List.sorted_cons.mp hsort).1 _ hmem
    rwa [timeOf_eq_of_lookup hlook] at hle

lemma update_access_time_wf {c : AudioCache} {id : String} {now : Nat}
    {e : CacheEntry} (hwf : Wf c) (hsome : lookupEntry c.entries id = some e)
    (hb : ∀ p ∈ c.entries, p.2.last_accessed ≤ now) :
    Wf (update_access_time c id now) := by
  obtain ⟨hnk, hno, hs1, hs2, hsort⟩ := hwf
  have hidk : id ∈ c.entries.map Prod.fst :=
    List.mem_map.mpr ⟨(id, e), lookupEntry_mem hsome, rfl⟩
  refine ⟨?_, ?_, ?_, ?_, ?_⟩
  · simpa only [update_access_time, keys_setAccessTime] using hnk
  · simp only [update_access_time]
    rw [List.nodup_append]
    refine ⟨hno.erase id, List.nodup_singleton id, ?_⟩
    intro a ha hmem
    rw [List.mem_singleton] at hmem
    subst hmem
    exact hno.not_mem_erase ha
  · intro a ha
    simp only [update_access_time] at ha ⊢
    rw [keys_setAccessTime]
    rcases List.mem_append.mp ha with h1 | h2
    · exact hs1 _ ((List.erase_sublist id c.access_order).subset h1)
    · rw [List.mem_singleton] at h2
      subst h2
      exact hidk
  · intro a ha
    simp only [update_access_time, keys_setAccessTime] at ha ⊢
    by_cases hai : a = id
    · subst hai
      exact List.mem_append.mpr (Or.inr (List.mem_singleton.mpr rfl))
    · exact List.mem_append.mpr (Or.inl ((List.mem_erase_of_ne hai).mpr (hs2 _ ha)))
  · simp only [update_access_time, List.map_append, List.map_singleton]
    have hmapeq : (c.access_order.erase id).map (timeOf (setAccessTime c.entries id now)) =
        (c.access_order.erase id).map (timeOf c.entries) :=
      List.map_congr_left (fun a ha => timeOf_setAccessTime_ne ((hno.mem_erase_iff.mp ha).1))
    rw [hmapeq, timeOf_eq_of_lookup (lookupEntry_setAccessTime_self hsome)]
    refine sorted_append_singleton
      (List.Pairwise.sublist (List.Sublist.map _ (List.erase_sublist _ _)) hsort) ?_
    intro x hx
    obtain ⟨a, ha, rfl⟩ := List.mem_map.mp hx
    exact timeOf_bound hb (hs1 _ ((List.erase_sublist id c.access_order).subset ha))

lemma remove_entry_wf (disk : List String) {c : AudioCache} {id : String}
    (hwf : Wf c) : Wf (remove_entry c disk id).1 := by
  obtain ⟨hnk, hno, hs1, hs2, hsort⟩ := hwf
  refine ⟨?_, ?_, ?_, ?_, ?_⟩
  · simp only [remove_entry]
    exact hnk.sublist (List.Sublist.map _ (eraseKey_sublist _ _))
  · simp only [remove_entry]
    exact hno.erase id
  · intro a ha
    simp only [remove_entry] at ha ⊢
    obtain ⟨hne, hmem⟩ := hno.mem_erase_iff.mp ha
    exact mem_keys_eraseKey.mpr ⟨hne, hs1 _ hmem⟩
  · intro a ha
    simp only [remove_entry] at ha ⊢
    obtain ⟨hne, hmem⟩ := mem_keys_eraseKey.mp ha
    exact (List.mem_erase_of_ne hne).mpr (hs2 _ hmem)
  · simp only [remove_entry]
    have hmapeq : (c.access_order.erase id).map (timeOf (eraseKey c.entries id)) =
        (c.access_order.erase id).map (timeOf c.entries) :=
      List.map_congr_left (fun a ha => timeOf_eraseKey_ne ((hno.mem_erase_iff.mp ha).1))
    rw [hmapeq]
    exact List.Pairwise.sublist (List.Sublist.map _ (List.erase_sublist _ _)) hsort

/-- One iteration of the eviction loop: popping the front id and removing its
entry keeps the invariant, removes exactly one entry, and leaves the rest of
the order untouched. -/
lemma evict_front_wf {c : AudioCache} {disk : List String} {oldest : String}
    {rest : List String} (hwf : Wf c) (h : c.access_order = oldest :: rest) :
    Wf (remove_entry { c with access_order := rest } disk oldest).1 ∧
    (remove_entry { c with access_order := rest } disk oldest).1.entries.length + 1 =
      c.entries.length ∧
    (remove_entry { c with access_order := rest } disk oldest).1.access_order = rest := by
  obtain ⟨hnk, hno, hs1, hs2, hsort⟩ := hwf
  rw [h] at hno hs1 hs2 hsort
  rw [List.map_cons] at hsort
  have hnomem : oldest ∉ rest := (List.nodup_cons.mp hno).1
  have hnorest : rest.Nodup := (List.nodup_cons.mp hno).2
  have hok : oldest ∈ c.entries.map Prod.fst := hs1 _ (List.mem_cons_self _ _)
  have horder : (remove_entry { c with access_order := rest } disk oldest).1.access_order
      = rest := by
    simp only [remove_entry]
    exact List.erase_of_not_mem hnomem
  refine ⟨⟨?_, ?_, ?_, ?_, ?_⟩, ?_, horder⟩
  · simp only [remove_entry]
    exact hnk.sublist (List.Sublist.map _ (eraseKey_sublist _ _))
  · rw [horder]
    exact hnorest
  · intro a ha
    rw [horder] at ha
    simp only [remove_entry]
    have hane : a ≠ oldest := fun heq => hnomem (heq ▸ ha)
    exact mem_keys_eraseKey.mpr ⟨hane, hs1 _ (List.mem_cons_of_mem _ ha)⟩
  · intro a ha
    rw [horder]
    simp only [remove_entry] at ha
    obtain ⟨hane, hmem⟩ := mem_keys_eraseKey.mp ha
    rcases List.mem_cons.mp (hs2 _ hmem) with h1 | h2
    · exact absurd h1 hane
    · exact h2
  · rw [horder]
    simp only [remove_entry]
    have hmapeq : rest.map (timeOf (eraseKey c.entries oldest)) =
        rest.map (timeOf c.entries) :=
      List.map_congr_left
        (fun a ha => timeOf_eraseKey_ne (fun heq => hnomem (heq ▸ ha)))
    rw [hmapeq]
    exact (List.sorted_cons.mp hsort).2
  · simp only [remove_entry]
    exact length_eraseKey_of_mem hnk hok

/-- Postcondition of the eviction loop: the invariant survives, entries and
order only shrink, and with positive capacity the loop exits strictly below
capacity. -/
def EnsureSpec (c : AudioCache) (disk : List String) : Prop :=
  Wf (ensure_cache_size_loop c disk).1 ∧
  (ensure_cache_size_loop c disk).1.max_entries = c.max_entries ∧
  (∀ p ∈ (ensure_cache_size_loop c disk).1.entries, p ∈ c.entries) ∧
  (∀ a ∈ (ensure_cache_size_loop c disk).1.access_order, a ∈ c.access_order) ∧
  (0 < c.max_entries → (ensure_cache_size_loop c disk).1.entries.length < c.max_entries)

lemma ensure_cache_size_loop_spec (c : AudioCache) (disk : List String)
    (hwf : Wf c) : EnsureSpec c disk := by
  suffices H : ∀ (n : Nat) (c : AudioCache) (disk : List String), Wf c →
      c.access_order.length = n → EnsureSpec c disk from H _ c disk hwf rfl
  intro n
  induction n using Nat.strong_induction_on with
  | _ n ih =>
    intro c disk hwf hn
    by_cases hge : c.entries.length ≥ c.max_entries
    · rcases horder : c.access_order with _ | ⟨oldest, rest⟩
      · have hentries : c.entries = [] := by
          rcases hc : c.entries with _ | ⟨p, ps⟩
          · rfl
          · exfalso
            have hmem : p.1 ∈ c.entries.map Prod.fst := by
              rw [hc]
              exact List.mem_map.mpr ⟨p, List.mem_cons_self _ _, rfl⟩
            have hord := hwf.2.2.2.1 _ hmem
            rw [horder] at hord
            simp at hord
        have heq : ensure_cache_size_loop c disk = (c, disk) := by
          rw [ensure_cache_size_loop.eq_def, if_pos hge]
          split
          · rfl
          · rename_i o r hh
            rw [horder] at hh
            cases hh
        unfold EnsureSpec
        rw [heq]
        refine ⟨hwf, rfl, fun p hp => hp, fun a ha => ha, ?_⟩
        intro hpos
        rw [hentries] at hge
        simp at hge
        omega
      · have heq : ensure_cache_size_loop c disk =
            ensure_cache_size_loop
              (remove_entry { c with access_order := rest } disk oldest).1
              (remove_entry { c with access_order := rest } disk oldest).2 := by
          conv_lhs => rw [ensure_cache_size_loop.eq_def]
          rw [if_pos hge]
          split
          · rename_i hh
            rw [horder] at hh
            cases hh
          · rename_i o r hh
            rw [horder] at hh
            cases hh
            rfl
        obtain ⟨hwf', hlen', horder'⟩ := evict_front_wf hwf horder
        have hcount : (remove_entry { c with access_order := rest } disk oldest).1.access_order.length < n := by
          rw [horder']
          rw [horder] at hn
          simp only [List.length_cons] at hn
          omega
        obtain ⟨sWf, sMax, sEnt, sOrd, sCnt⟩ :=
          ih _ hcount (remove_entry { c with access_order := rest } disk oldest).1
            (remove_entry { c with access_order := rest } disk oldest).2 hwf' rfl
        unfold EnsureSpec
        rw [heq]
        refine ⟨sWf, sMax, ?_, ?_, fun hpos => sCnt hpos⟩
        · intro p hp
          exact (eraseKey_sublist c.entries oldest).subset (sEnt p hp)
        · intro a ha
          rw [horder]
          refine List.mem_cons_of_mem _ ?_
          have hmem := sOrd a ha
          rwa [horder'] at hmem
    · have heq : ensure_cache_size_loop c disk = (c, disk) := by
        rw [ensure_cache_size_loop.eq_def, if_neg hge]
      unfold EnsureSpec
      rw [heq]
      exact ⟨hwf, rfl, fun p hp => hp, fun a ha => ha, fun _ => not_le.mp hge⟩

lemma get_cached_path_spec (c : AudioCache) (disk : List String) (id : String)
    (now : Nat) (hwf : Wf c) (hb : ∀ p ∈ c.entries, p.2.last_accessed ≤ now) :
    Wf (get_cached_path c disk id now).1 ∧
    (get_cached_path c disk id now).1.max_entries = c.max_entries ∧
    (∀ p ∈ (get_cached_path c disk id now).1.entries, p.2.last_accessed ≤ now) ∧
    (get_cached_path c disk id now).1.entries.length ≤ c.entries.length ∧
    ((get_cached_path c disk id now).2.2 = none →
      id ∉ (get_cached_path c disk id now).1.entries.map Prod.fst ∧
      id ∉ (get_cached_path c disk id now).1.access_order) := by
  rcases hl : lookupEntry c.entries id with _ | e
  · have hpath : get_cached_path c disk id now = (c, disk, none) := by
      unfold get_cached_path
      rw [hl]
    rw [hpath]
    have hid : id ∉ c.entries.map Prod.fst := lookupEntry_eq_none.mp hl
    exact ⟨hwf, rfl, hb, le_refl _, fun _ => ⟨hid, fun hmem => hid (hwf.2.2.1 _ hmem)⟩⟩
  · by_cases hd : e.file_path ∈ disk
    · have hpath : get_cached_path c disk id now =
          (update_access_time c id now, disk, some e.file_path) := by
        unfold get_cached_path
        rw [hl]
        simp [hd]
      rw [hpath]
      refine ⟨update_access_time_wf hwf hl hb, rfl, ?_, ?_, ?_⟩
      · exact setAccessTime_bound hb
      · simp only [update_access_time]
        rw [length_setAccessTime]
      · intro hnone
        cases hnone
    · have hpath : get_cached_path c disk id now =
          ((remove_entry c disk id).1, (remove_entry c disk id).2, none) := by
        unfold get_cached_path
        rw [hl]
        simp [hd]
      rw [hpath]
      refine ⟨remove_entry_wf disk hwf, rfl, ?_, ?_, ?_⟩
      · intro p hp
        simp only [remove_entry] at hp
        exact hb _ ((eraseKey_sublist _ _).subset hp)
      · simp only [remove_entry]
        exact (eraseKey_sublist _ _).length_le
      · intro _
        simp only [remove_entry]
        constructor
        · intro hmem
          exact (mem_keys_eraseKey.mp hmem).1 rfl
        · exact hwf.2.1.not_mem_erase

lemma insert_entry_wf {c : AudioCache} {id path : String} {now size : Nat}
    (hwf : Wf c) (hkeys : id ∉ c.entries.map Prod.fst) (hord : id ∉ c.access_order)
    (hb : ∀ p ∈ c.entries, p.2.last_accessed ≤ now) :
    Wf { c with entries := (id, ⟨path, now, size⟩) :: eraseKey c.entries id,
                access_order := c.access_order ++ [id] } := by
  rw [eraseKey_of_not_mem hkeys]
  obtain ⟨hk, ho, h1, h2, hsort⟩ := hwf
  refine ⟨?_, ?_, ?_, ?_, ?_⟩
  · simp only [List.map_cons, List.nodup_cons]
    exact ⟨hkeys, hk⟩
  · rw [List.nodup_append]
    refine ⟨ho, List.nodup_singleton _, ?_⟩
    intro a ha hmem
    rw [List.mem_singleton] at hmem
    subst hmem
    exact hord ha
  · intro a ha
    simp only [List.map_cons, List.mem_cons]
    rcases List.mem_append.mp ha with ha1 | ha2
    · exact Or.inr (h1 _ ha1)
    · rw [List.mem_singleton] at ha2
      exact Or.inl ha2
  · intro a ha
    simp only [List.map_cons, List.mem_cons] at ha
    rcases ha with ha1 | ha2
    · subst ha1
      exact List.mem_append.mpr (Or.inr (List.mem_singleton.mpr rfl))
    · exact List.mem_append.mpr (Or.inl (h2 _ ha2))
  · rw [List.map_append, List.map_singleton]
    have h3 : c.access_order.map (timeOf ((id, (⟨path, now, size⟩ : CacheEntry)) :: c.entries)) =
        c.access_order.map (timeOf c.entries) :=
      List.map_congr_left (fun a ha => timeOf_cons_ne (fun heq => hord (heq ▸ ha)))
    have h4 : timeOf ((id, (⟨path, now, size⟩ : CacheEntry)) :: c.entries) id = now := by
      unfold timeOf lookupEntry
      simp
    rw [h3, h4]
    refine sorted_append_singleton hsort ?_
    intro y hy
    obtain ⟨a, ha, rfl⟩ := List.mem_map.mp hy
    exact timeOf_bound hb (h1 _ ha)

/-! ### Store path analysis -/

lemma cache_audio_eq_hit {c : AudioCache} {disk : List String} {id : String}
    {now : Nat} (env : FetchEnv) {c1 : AudioCache} {d1 : List String} {p : String}
    (h : get_cached_path c disk id now = (c1, d1, some p)) :
    cache_audio c disk id now env = (c1, d1, .ok p) := by
  unfold cache_audio
  rw [h]

lemma cache_audio_eq_miss {c : AudioCache} {disk : List String} {id : String}
    {now : Nat} (env : FetchEnv) {c1 : AudioCache} {d1 : List String}
    (h : get_cached_path c disk id now = (c1, d1, none)) :
    cache_audio c disk id now env =
      cache_audio_download (ensure_cache_size_loop c1 d1).1
        (ensure_cache_size_loop c1 d1).2 id now env := by
  unfold cache_audio
  rw [h]

lemma cache_audio_download_ok {c2 : AudioCache} {d2 : List String} {id : String}
    {now : Nat} {env : FetchEnv} {size : Nat}
    (h1 : env.send_ok = true) (h2 : env.status_success = true)
    (h3 : env.create_ok = true) (h4 : env.body.isSome)
    (h5 : env.write_ok = true) (h6 : env.flush_ok = true)
    (h7 : env.meta_size = some size) :
    (cache_audio_download c2 d2 id now env).1 =
      { c2 with entries := (id, ⟨id ++ ".audio", now, size⟩) :: eraseKey c2.entries id,
                access_order := c2.access_order ++ [id] } ∧
    (cache_audio_download c2 d2 id now env).2.2 = .ok (id ++ ".audio") := by
  rcases hb : env.body with _ | b
  · rw [hb] at h4
    simp at h4
  · unfold cache_audio_download
    simp [h1, h2, h3, hb, h5, h6, h7]

/-- The download tail either fails on some step, leaving the index and order
untouched, or succeeds and registers the new entry. -/
lemma cache_audio_download_cases (c2 : AudioCache) (d2 : List String) (id : String)
    (now : Nat) (env : FetchEnv) :
    ((cache_audio_download c2 d2 id now env).1 = c2 ∧
      ∃ msg, (cache_audio_download c2 d2 id now env).2.2 = .error msg) ∨
    ∃ size, env.meta_size = some size ∧
      (cache_audio_download c2 d2 id now env).1 =
        { c2 with entries := (id, ⟨id ++ ".audio", now, size⟩) :: eraseKey c2.entries id,
                  access_order := c2.access_order ++ [id] } ∧
      (cache_audio_download c2 d2 id now env).2.2 = .ok (id ++ ".audio") := by
  unfold cache_audio_download
  by_cases h1 : env.send_ok
  case neg => left; simp [h1]
  by_cases h2 : env.status_success
  case neg => left; simp [h1, h2]
  by_cases h3 : env.create_ok
  case neg => left; simp [h1, h2, h3]
  rcases h4 : env.body with _ | b
  · left
    simp [h1, h2, h3, h4]
  by_cases h5 : env.write_ok
  case neg => left; simp [h1, h2, h3, h4, h5]
  by_cases h6 : env.flush_ok
  case neg => left; simp [h1, h2, h3, h4, h5, h6]
  rcases h7 : env.meta_size with _ | size
  · left
    simp [h1, h2, h3, h4, h5, h6, h7]
  right
  refine ⟨size, rfl, ?_, ?_⟩ <;> simp [h1, h2, h3, h4, h5, h6, h7]

lemma cache_audio_download_err {c2 : AudioCache} {d2 : List String} {id : String}
    {now : Nat} {env : FetchEnv} {msg : String}
    (h : (cache_audio_download c2 d2 id now env).2.2 = .error msg) :
    (cache_audio_download c2 d2 id now env).1 = c2 := by
  rcases cache_audio_download_cases c2 d2 id now env with ⟨hc, _⟩ | ⟨size, _, _, hok⟩
  · exact hc
  · rw [hok] at h
    cases h

lemma cache_audio_download_wf {c2 : AudioCache} {d2 : List String} {id : String}
    {now : Nat} (env : FetchEnv) (hwf : Wf c2)
    (hkeys : id ∉ c2.entries.map Prod.fst) (hord : id ∉ c2.access_order)
    (hb : ∀ p ∈ c2.entries, p.2.last_accessed ≤ now) :
    Wf (cache_audio_download c2 d2 id now env).1 ∧
    (cache_audio_download c2 d2 id now env).1.entries.length ≤
      c2.entries.length + 1 := by
  rcases cache_audio_download_cases c2 d2 id now env with ⟨hc, _⟩ | ⟨size, _, hc, _⟩
  · rw [hc]
    exact ⟨hwf, by omega⟩
  · rw [hc]
    refine ⟨insert_entry_wf hwf hkeys hord hb, ?_⟩
    simp only [List.length_cons]
    rw [eraseKey_of_not_mem hkeys]

lemma ensure_not_mem {c1 : AudioCache} {d1 : List String} {id : String}
    (hwf : Wf c1) (hk : id ∉ c1.entries.map Prod.fst) (ho : id ∉ c1.access_order) :
    id ∉ (ensure_cache_size_loop c1 d1).1.entries.map Prod.fst ∧
    id ∉ (ensure_cache_size_loop c1 d1).1.access_order := by
  obtain ⟨_, _, sEnt, sOrd, _⟩ := ensure_cache_size_loop_spec c1 d1 hwf
  constructor
  · intro hmem
    obtain ⟨p, hp, hfst⟩ := List.mem_map.mp hmem
    exact hk (List.mem_map.mpr ⟨p, sEnt p hp, hfst⟩)
  · intro hmem
    exact ho (sOrd _ hmem)

/-! ### Cache claims -/

/-- C1: whenever `cache_audio` stores a new entry while the cache is at or
above its fixed capacity of 100, it evicts in LRU order — under the cache
invariant the front of the access order (which `ensure_cache_size` pops) is
the entry with the oldest access timestamp among current entries — until the
count is below capacity, so after any store the entry count is at most 100;
the invariant is preserved, so the same holds of every later eviction. -/
theorem cache_audio_lru_eviction_capacity
    (c : AudioCache) (disk : List String) (id : String) (now : Nat) (env : FetchEnv)
    (hwf : Wf c) (hmax : c.max_entries = 100)
    (hb : ∀ p ∈ c.entries, p.2.last_accessed ≤ now)
    (hcount : c.entries.length ≤ 100) :
    (∀ oldest rest, c.access_order = oldest :: rest →
        ∀ p ∈ c.entries, timeOf c.entries oldest ≤ p.2.last_accessed) ∧
    (cache_audio c disk id now env).1.entries.length ≤ 100 ∧
    Wf (cache_audio c disk id now env).1 := by
  obtain ⟨gWf, gMax, gB, gLen, gMiss⟩ := get_cached_path_spec c disk id now hwf hb
  refine ⟨fun oldest rest h => wf_front_oldest hwf h, ?_⟩
  rcases hg : get_cached_path c disk id now with ⟨c1, d1, res⟩
  rw [hg] at gWf gMax gB gLen gMiss
  rcases res with _ | p
  · rw [cache_audio_eq_miss env hg]
    obtain ⟨hk1, ho1⟩ := gMiss rfl
    obtain ⟨eWf, eMax, eEnt, eOrd, eCnt⟩ := ensure_cache_size_loop_spec c1 d1 gWf
    obtain ⟨hk2, ho2⟩ := ensure_not_mem gWf hk1 ho1
    have hb2 : ∀ p ∈ (ensure_cache_size_loop c1 d1).1.entries, p.2.last_accessed ≤ now :=
      fun p hp => gB _ (eEnt p hp)
    obtain ⟨dWf, dLen⟩ := cache_audio_download_wf env eWf hk2 ho2 hb2
    refine ⟨?_, dWf⟩
    have hcnt : (ensure_cache_size_loop c1 d1).1.entries.length < c1.max_entries := by
      apply eCnt
      rw [gMax, hmax]
      omega
    rw [gMax, hmax] at hcnt
    omega
  · rw [cache_audio_eq_hit env hg]
    exact ⟨le_trans gLen hcount, gWf⟩

def cacheW : AudioCache :=
  { entries := [("a", ⟨"a.audio", 1, 5⟩)], access_order := ["a"], max_entries := 100 }

def envOkW : FetchEnv :=
  { send_ok := true, status_success := true, create_ok := true, body := some [1, 2]
    write_ok := true, flush_ok := true, meta_size := some 2 }

theorem cache_audio_lru_eviction_capacity_witness :
    (Wf cacheW ∧ cacheW.max_entries = 100 ∧
      (∀ p ∈ cacheW.entries, p.2.last_accessed ≤ 2) ∧ cacheW.entries.length ≤ 100) ∧
    ((∀ oldest rest, cacheW.access_order = oldest :: rest →
        ∀ p ∈ cacheW.entries, timeOf cacheW.entries oldest ≤ p.2.last_accessed) ∧
      (cache_audio cacheW [] "b" 2 envOkW).1.entries.length ≤ 100 ∧
      Wf (cache_audio cacheW [] "b" 2 envOkW).1) :=
  ⟨⟨by decide, by decide, by decide, by decide⟩,
   cache_audio_lru_eviction_capacity cacheW [] "b" 2 envOkW
     (by decide) (by decide) (by decide) (by decide)⟩

/-- C6: `get_cached_path` returns the cached path exactly when the index has
an entry whose file is present on disk; a stale entry (file missing) is
removed from both the index and the access order with a `none` result; a hit
bumps the access timestamp to `now` and moves the id to the MRU end. -/
theorem get_cached_path_lookup_spec
    (c : AudioCache) (disk : List String) (id : String) (now : Nat) (hwf : Wf c) :
    (∀ p, (get_cached_path c disk id now).2.2 = some p ↔
       ∃ e, lookupEntry c.entries id = some e ∧ e.file_path ∈ disk ∧ p = e.file_path) ∧
    (∀ e, lookupEntry c.entries id = some e → e.file_path ∉ disk →
       (get_cached_path c disk id now).2.2 = none ∧
       id ∉ (get_cached_path c disk id now).1.entries.map Prod.fst ∧
       id ∉ (get_cached_path c disk id now).1.access_order) ∧
    (∀ e, lookupEntry c.entries id = some e → e.file_path ∈ disk →
       lookupEntry (get_cached_path c disk id now).1.entries id =
         some { e with last_accessed := now } ∧
       (get_cached_path c disk id now).1.access_order =
         c.access_order.erase id ++ [id]) := by
  rcases hl : lookupEntry c.entries id with _ | e
  · have hpath : get_cached_path c disk id now = (c, disk, none) := by
      unfold get_cached_path
      rw [hl]
    rw [hpath]
    refine ⟨?_, ?_, ?_⟩
    · intro p
      constructor
      · intro h
        cases h
      · rintro ⟨e, he, -, -⟩
        cases he
    · intro e he
      cases he
    · intro e he
      cases he
  · by_cases hd : e.file_path ∈ disk
    · have hpath : get_cached_path c disk id now =
          (update_access_time c id now, disk, some e.file_path) := by
        unfold get_cached_path
        rw [hl]
        simp [hd]
      rw [hpath]
      refine ⟨?_, ?_, ?_⟩
      · intro p
        constructor
        · intro h
          injection h with h
          exact ⟨e, rfl, hd, h.symm⟩
        · rintro ⟨e', he', -, rfl⟩
          injection he' with he'
          rw [he']
      · intro e' he' hd'
        injection he' with he'
        subst he'
        exact absurd hd hd'
      · intro e' he' _
        injection he' with he'
        subst he'
        refine ⟨?_, rfl⟩
        simp only [update_access_time]
        exact lookupEntry_setAccessTime_self hl
    · have hpath : get_cached_path c disk id now =
          ((remove_entry c disk id).1, (remove_entry c disk id).2, none) := by
        unfold get_cached_path
        rw [hl]
        simp [hd]
      rw [hpath]
      refine ⟨?_, ?_, ?_⟩
      · intro p
        constructor
        · intro h
          cases h
        · rintro ⟨e', he', hd', rfl⟩
          injection he' with he'
          subst he'
          exact absurd hd' hd
      · intro e' he' _
        refine ⟨rfl, ?_, ?_⟩
        · simp only [remove_entry]
          intro hmem
          exact (mem_keys_eraseKey.mp hmem).1 rfl
        · simp only [remove_entry]
          exact hwf.2.1.not_mem_erase
      · intro e' he' hd'
        injection he' with he'
        subst he'
        exact absurd hd' hd

theorem get_cached_path_lookup_spec_witness :
    Wf cacheW ∧
    ((∀ p, (get_cached_path cacheW ["a.audio"] "a" 7).2.2 = some p ↔
       ∃ e, lookupEntry cacheW.entries "a" = some e ∧ e.file_path ∈ ["a.audio"] ∧
         p = e.file_path) ∧
    (∀ e, lookupEntry cacheW.entries "a" = some e → e.file_path ∉ ["a.audio"] →
       (get_cached_path cacheW ["a.audio"] "a" 7).2.2 = none ∧
       "a" ∉ (get_cached_path cacheW ["a.audio"] "a" 7).1.entries.map Prod.fst ∧
       "a" ∉ (get_cached_path cacheW ["a.audio"] "a" 7).1.access_order) ∧
    (∀ e, lookupEntry cacheW.entries "a" = some e → e.file_path ∈ ["a.audio"] →
       lookupEntry (get_cached_path cacheW ["a.audio"] "a" 7).1.entries "a" =
         some { e with last_accessed := 7 } ∧
       (get_cached_path cacheW ["a.audio"] "a" 7).1.access_order =
         cacheW.access_order.erase "a" ++ ["a"])) :=
  ⟨by decide, get_cached_path_lookup_spec cacheW ["a.audio"] "a" 7 (by decide)⟩

/-- C7: a store that fails with a non-success response or an I/O failure at
any step returns an error and registers nothing for the id — the id is in
neither the index nor the access order afterwards; a successful fresh store
inserts the entry with the downloaded file's size and the current timestamp
and appends the id at the MRU end. -/
theorem cache_audio_no_partial_register
    (c : AudioCache) (disk : List String) (id : String) (now : Nat) (env : FetchEnv)
    (hwf : Wf c) (hb : ∀ p ∈ c.entries, p.2.last_accessed ≤ now) :
    ((∃ msg, (cache_audio c disk id now env).2.2 = .error msg) →
       id ∉ (cache_audio c disk id now env).1.entries.map Prod.fst ∧
       id ∉ (cache_audio c disk id now env).1.access_order) ∧
    (∀ size, (get_cached_path c disk id now).2.2 = none → env.send_ok = true →
       env.status_success = true → env.create_ok = true → env.body.isSome = true →
       env.write_ok = true → env.flush_ok = true → env.meta_size = some size →
       lookupEntry (cache_audio c disk id now env).1.entries id =
         some ⟨id ++ ".audio", now, size⟩ ∧
       ∃ pre, (cache_audio c disk id now env).1.access_order = pre ++ [id] ∧
         id ∉ pre) := by
  obtain ⟨gWf, gMax, gB, gLen, gMiss⟩ := get_cached_path_spec c disk id now hwf hb
  rcases hg : get_cached_path c disk id now with ⟨c1, d1, res⟩
  rw [hg] at gWf gMax gB gLen gMiss
  rcases res with _ | p
  · obtain ⟨hk1, ho1⟩ := gMiss rfl
    obtain ⟨hk2, ho2⟩ := ensure_not_mem gWf hk1 ho1
    rw [cache_audio_eq_miss env hg]
    constructor
    · rintro ⟨msg, hmsg⟩
      rw [cache_audio_download_err hmsg]
      exact ⟨hk2, ho2⟩
    · intro size _ h1 h2 h3 h4 h5 h6 h7
      obtain ⟨hins, hok⟩ := cache_audio_download_ok h1 h2 h3 h4 h5 h6 h7
      rw [hins]
      constructor
      · simp [lookupEntry]
      · exact ⟨(ensure_cache_size_loop c1 d1).1.access_order, rfl, ho2⟩
  · rw [cache_audio_eq_hit env hg]
    constructor
    · rintro ⟨msg, hmsg⟩
      cases hmsg
    · intro size hnone
      simp at hnone

def envFailW : FetchEnv :=
  { send_ok := true, status_success := false, create_ok := true, body := some [1, 2]
    write_ok := true, flush_ok := true, meta_size := some 2 }

theorem cache_audio_no_partial_register_witness :
    (Wf cacheW ∧ (∀ p ∈ cacheW.entries, p.2.last_accessed ≤ 2)) ∧
    (((∃ msg, (cache_audio cacheW [] "b" 2 envFailW).2.2 = .error msg) →
       "b" ∉ (cache_audio cacheW [] "b" 2 envFailW).1.entries.map Prod.fst ∧
       "b" ∉ (cache_audio cacheW [] "b" 2 envFailW).1.access_order) ∧
    (∀ size, (get_cached_path cacheW [] "b" 2).2.2 = none →
       envFailW.send_ok = true → envFailW.status_success = true →
       envFailW.create_ok = true → envFailW.body.isSome = true →
       envFailW.write_ok = true → envFailW.flush_ok = true →
       envFailW.meta_size = some size →
       lookupEntry (cache_audio cacheW [] "b" 2 envFailW).1.entries "b" =
         some ⟨"b" ++ ".audio", 2, size⟩ ∧
       ∃ pre, (cache_audio cacheW [] "b" 2 envFailW).1.access_order = pre ++ ["b"] ∧
         "b" ∉ pre)) :=
  ⟨⟨by decide, by decide⟩,
   cache_audio_no_partial_register cacheW [] "b" 2 envFailW (by decide) (by decide)⟩

/-! ## Playback actor (`audio_player.rs`)

`PlaybackState`, `QueueItem`, `PlayerEvent`, `PlayerCommand` and the worker
state mirror the Rust definitions.  Wall-clock `Instant`s are rationals
passed to each operation; the rodio sink is a `SinkState` record; network,
file, probe/decode, native-seek and sink-creation effects are supplied by a
`PlayerEnv` oracle.  `f64` positions and durations are embedded as `ℚ`. -/

inductive RepeatMode where
  | None
  | One
  | All
deriving DecidableEq

structure QueueItem where
  id : String
  name : String
  artists : List String
  album : Option String
  duration_ticks : Option Int
  stream_url : String
deriving DecidableEq

structure PlaybackState where
  is_playing : Bool
  current_position : ℚ
  duration : ℚ
  volume : ℚ
  is_shuffled : Bool
  repeat_mode : RepeatMode
  current_song : Option QueueItem
deriving DecidableEq

inductive PlayerEvent where
  | StateChanged (s : PlaybackState)
  | TrackChanged (item : Option QueueItem)
  | PositionUpdate (pos : ℚ)
  | Error (msg : String)
deriving DecidableEq

/-- The live rodio `Sink`: its pause flag and volume. -/
structure SinkState where
  paused : Bool
  volume : ℚ
deriving DecidableEq

/-- The decode-side state of `SymphoniaSource` that the claims depend on:
the probed parameters, the derivable total duration, and the reader's
current decode position (`pos`). -/
structure SymphoniaSource where
  sample_rate : Nat
  channels : Nat
  total_duration : Option ℚ
  pos : ℚ
deriving DecidableEq

structure HttpResponse where
  bytes : Except String (List Nat)

/-- Effect oracle for the worker: local file reads, HTTP downloads, format
probing/decoder construction (`SymphoniaSource::from_data`), the format
reader's native seek, and `Sink::try_new`. -/
structure PlayerEnv where
  read_file : String → Except String (List Nat)
  http_get : String → Except String HttpResponse
  from_data : List Nat → Except String SymphoniaSource
  native_seek : ℚ → Except String Unit
  sink_new : Except String Unit

/-- `SymphoniaSource::seek_to_time`: non-positive targets return `Ok`
without touching the reader; otherwise the native format-reader seek is
attempted and on success buffered samples are cleared and decoding
continues at the target timestamp. -/
def seek_to_time (env : PlayerEnv) (src : SymphoniaSource) (time_seconds : ℚ) :
    Except String SymphoniaSource :=
  if time_seconds ≤ 0 then .ok src
  else
    match env.native_seek time_seconds with
    | .error e => .error ("Seek failed: " ++ e)
    | .ok _ => .ok { src with pos := time_seconds }

/-- The mutable state of `AudioPlayerWorker`. -/
structure Worker where
  sink : Option SinkState
  symphonia_source : Option SymphoniaSource
  state : PlaybackState
  queue : List QueueItem
  current_index : Option Nat
  last_position_update : ℚ
  audio_start_time : Option ℚ
  visual_position : ℚ
  cached_audio_data : Option (List Nat)
  cached_song_id : Option String
deriving DecidableEq

/-- Outcome of resolving the raw audio bytes at the start of
`play_item_with_offset`: reuse of the in-memory cache, a local `file://`
read, or an HTTP download.  `panic` marks the guarded `unwrap` of
`cached_audio_data` inside the cache-hit branch. -/
inductive Resolved where
  | ok (w : Worker) (data : List Nat)
  | err (w : Worker) (msg : String)
  | panic

/-- The `stream_url.starts_with("file://")` test, written over the character
list so that concrete instances evaluate in the kernel. -/
def startsWithFileScheme (s : String) : Bool :=
  decide (s.data.take 7 = "file://".data)

def resolve_audio_data (w : Worker) (env : PlayerEnv) (item : QueueItem) :
    Resolved :=
  if w.cached_song_id = some item.id ∧ w.cached_audio_data.isSome then
    match w.cached_audio_data with
    | some d => .ok w d
    | none => .panic
  else if startsWithFileScheme item.stream_url then
    match env.read_file (item.stream_url.drop 7) with
    | .error e => .err w ("Failed to read cached audio file: " ++ e)
    | .ok data =>
      .ok { w with cached_audio_data := some data, cached_song_id := some item.id } data
  else
    match env.http_get item.stream_url with
    | .error e => .err w ("Failed to download audio: " ++ e)
    | .ok response =>
      match response.bytes with
      | .error e => .err w ("Failed to read audio bytes: " ++ e)
      | .ok data =>
        .ok { w with cached_audio_data := some data, cached_song_id := some item.id } data

/-- Result of one worker operation: the new state, the events broadcast, the
reply value, and whether an `unwrap` panicked. -/
structure PlayOutcome where
  w : Worker
  events : List PlayerEvent
  result : Except String Unit
  panicked : Bool

/-- `AudioPlayerWorker::play_item_with_offset`: resolve the raw bytes (and
cache them), build a `SymphoniaSource`, seek when the offset is positive,
derive the duration (ticks hint first, then the source's own duration,
else 0), build a sink, rebuild a second source for later seeking from the
unconditionally unwrapped `cached_audio_data`, then update the playback
state, re-anchor position bookkeeping and emit `TrackChanged` and
`StateChanged`.  Every failure returns the error leaving sink and playback
state untouched. -/
def play_item_with_offset (w0 : Worker) (env : PlayerEnv) (now : ℚ)
    (item : QueueItem) (offset_seconds : ℚ) : PlayOutcome :=
  match resolve_audio_data w0 env item with
  | .panic => { w := w0, events := [], result := .error "panic", panicked := true }
  | .err w e => { w := w, events := [], result := .error e, panicked := false }
  | .ok w audio_data =>
    match env.from_data audio_data with
    | .error e => { w := w, events := [], result := .error e, panicked := false }
    | .ok src0 =>
      let seeked : Except String SymphoniaSource :=
        if offset_seconds > 0 then seek_to_time env src0 offset_seconds else .ok src0
      match seeked with
      | .error e => { w := w, events := [], result := .error e, panicked := false }
      | .ok _src =>
        let duration : ℚ :=
          match item.duration_ticks with
          | some ticks => (ticks : ℚ) / 10000000
          | none =>
            match src0.total_duration with
            | some d => d
            | none => 0
        match env.sink_new with
        | .error e =>
          { w := w, events := [], result := .error ("Failed to create sink: " ++ e),
            panicked := false }
        | .ok _ =>
          let sink : SinkState := { paused := false, volume := w.state.volume }
          match w.cached_audio_data with
          | none => { w := w, events := [], result := .error "panic", panicked := true }
          | some cached =>
            match env.from_data cached with
            | .error e => { w := w, events := [], result := .error e, panicked := false }
            | .ok seekSrc0 =>
              let seeking_source :=
                if offset_seconds > 0 then
                  match seek_to_time env seekSrc0 offset_seconds with
                  | .ok s => s
                  | .error _ => seekSrc0
                else seekSrc0
              let st := { w.state with
                is_playing := !sink.paused
                current_position := offset_seconds
                duration := duration
                current_song := some item }
              { w := { w with
                  symphonia_source := some seeking_source
                  state := st
                  audio_start_time := some now
                  visual_position := offset_seconds
                  sink := some sink }
                events := [.TrackChanged (some item), .StateChanged st]
                result := .ok ()
                panicked := false }

/-- `AudioPlayerWorker::play_item`: clear the in-memory byte cache when the
song changes, then play from offset 0. -/
def play_item (w : Worker) (env : PlayerEnv) (now : ℚ) (item : QueueItem) :
    PlayOutcome :=
  let w1 :=
    if w.cached_song_id ≠ some item.id then
      { w with cached_audio_data := none, cached_song_id := none }
    else w
  play_item_with_offset w1 env now item 0

/-- `AudioPlayerWorker::update_position` at wall-clock instant `now`. -/
def update_position (w : Worker) (now : ℚ) : Worker × List PlayerEvent :=
  match w.audio_start_time with
  | none => (w, [])
  | some start_time =>
    if w.state.is_playing then
      let elapsed := now - start_time
      let new_position := w.visual_position + elapsed
      if w.state.duration > 0 ∧ new_position ≥ w.state.duration then
        let st := { w.state with
          current_position := w.state.duration
          is_playing := false }
        ({ w with state := st, audio_start_time := none }, [.StateChanged st])
      else
        let st := { w.state with current_position := new_position }
        if now - w.last_position_update ≥ 1 / 2 then
          ({ w with state := st, last_position_update := now },
           [.PositionUpdate st.current_position, .StateChanged st])
        else
          ({ w with state := st }, [])
    else (w, [])

/-- `AudioPlayerWorker::pause`: a no-op without a sink; otherwise pause the
sink, refresh the position, stop playing and clear the timing anchor. -/
def pause (w : Worker) (now : ℚ) : Worker × List PlayerEvent :=
  match w.sink with
  | none => (w, [])
  | some sink =>
    let w1 := { w with sink := some { sink with paused := true } }
    let step := update_position w1 now
    let st := { step.1.state with is_playing := false }
    ({ step.1 with state := st, audio_start_time := none },
     step.2 ++ [.StateChanged st])

/-- `AudioPlayerWorker::resume`: a no-op without a sink; otherwise unpause,
re-anchor `audio_start_time` to now and hold `visual_position` at the last
computed position. -/
def resume (w : Worker) (now : ℚ) : Worker × List PlayerEvent :=
  match w.sink with
  | none => (w, [])
  | some sink =>
    let st := { w.state with is_playing := true }
    ({ w with
        sink := some { sink with paused := false }
        state := st
        audio_start_time := some now
        visual_position := st.current_position },
     [.StateChanged st])

/-- `AudioPlayerWorker::stop`. -/
def stop (w : Worker) : Worker × List PlayerEvent :=
  let st := { w.state with
    is_playing := false
    current_position := 0
    current_song := none }
  ({ w with
      sink := none
      state := st
      audio_start_time := none
      visual_position := 0
      cached_audio_data := none
      cached_song_id := none },
   [.StateChanged st, .TrackChanged none])

/-- `AudioPlayerWorker::set_volume`. -/
def set_volume (w : Worker) (volume : ℚ) : Worker × List PlayerEvent :=
  let clamped_volume := max 0 (min 1 volume)
  let sink' := w.sink.map (fun s => { s with volume := clamped_volume })
  let st := { w.state with volume := clamped_volume }
  ({ w with sink := sink', state := st }, [.StateChanged st])

/-- `AudioPlayerWorker::toggle_shuffle`. -/
def toggle_shuffle (w : Worker) : Worker × List PlayerEvent :=
  let st := { w.state with is_shuffled := !w.state.is_shuffled }
  ({ w with state := st }, [.StateChanged st])

/-- `AudioPlayerWorker::set_repeat_mode`. -/
def set_repeat_mode (w : Worker) (mode : RepeatMode) : Worker × List PlayerEvent :=
  let st := { w.state with repeat_mode := mode }
  ({ w with state := st }, [.StateChanged st])

/-- `AudioPlayerWorker::next_track`: with a non-empty queue, advance the
index; at the end of the queue, `RepeatMode::All` wraps to index 0 and any
other mode does nothing; with no current index, start at 0. -/
def next_track (w : Worker) (env : PlayerEnv) (now : ℚ) :
    Worker × List PlayerEvent :=
  if w.queue.isEmpty then (w, [])
  else
    let next_index : Option Nat :=
      match w.current_index with
      | some index =>
        if index + 1 ≥ w.queue.length then
          match w.state.repeat_mode with
          | .All => some 0
          | _ => none
        else some (index + 1)
      | none => some 0
    match next_index with
    | some index =>
      match w.queue[index]? with
      | some item =>
        let w1 := { w with current_index := some index }
        let out := play_item w1 env now item
        (out.w, out.events)
      | none => (w, [])
    | none => (w, [])

/-- `AudioPlayerWorker::previous_track`: mirror image of `next_track`, with
`RepeatMode::All` wrapping from index 0 to the last index. -/
def previous_track (w : Worker) (env : PlayerEnv) (now : ℚ) :
    Worker × List PlayerEvent :=
  if w.queue.isEmpty then (w, [])
  else
    let prev_index : Option Nat :=
      match w.current_index with
      | some index =>
        if index = 0 then
          match w.state.repeat_mode with
          | .All => some (w.queue.length - 1)
          | _ => none
        else some (index - 1)
      | none => some (w.queue.length - 1)
    match prev_index with
    | some index =>
      match w.queue[index]? with
      | some item =>
        let w1 := { w with current_index := some index }
        let out := play_item w1 env now item
        (out.w, out.events)
      | none => (w, [])
    | none => (w, [])

/-- Which seek strategy `AudioPlayerWorker::seek` ended up using. `native`
is the instant path over a fresh `SymphoniaSource`; `restart` is the
fallback that re-runs `play_item_with_offset` at the target position;
`sampleDiscard` is the sequential decode-and-discard strategy asserted by
the specification, listed here so the code's behaviour can be compared
against it (the code never produces it). -/
inductive SeekMethod where
  | native
  | sampleDiscard
  | restart
deriving DecidableEq

/-- `AudioPlayerWorker::seek`: with no current song do nothing.  Otherwise
try the instant path — fresh source over the cached bytes, `seek_to_time`,
fresh sink, preserved pause flag, re-anchored bookkeeping.  If any of those
steps fails, fall back to stopping the sink and re-running
`play_item_with_offset` at the requested position, restoring the pause flag
afterwards. -/
def seek (w : Worker) (env : PlayerEnv) (now : ℚ) (position : ℚ) :
    Worker × List PlayerEvent × Option SeekMethod :=
  match w.state.current_song with
  | none => (w, [], none)
  | some current_song =>
    let was_playing := w.state.is_playing
    let instant : Option (Worker × List PlayerEvent) :=
      match w.cached_audio_data with
      | none => none
      | some cached_data =>
        match env.from_data cached_data with
        | .error _ => none
        | .ok new_source0 =>
          match seek_to_time env new_source0 position with
          | .error _ => none
          | .ok _new_source =>
            match env.sink_new with
            | .error _ => none
            | .ok _ =>
              let new_sink0 : SinkState := { paused := false, volume := w.state.volume }
              let stored : Option SymphoniaSource :=
                match env.from_data cached_data with
                | .ok s =>
                  match seek_to_time env s position with
                  | .ok s' => some s'
                  | .error _ => some s
                | .error _ => w.symphonia_source
              let new_sink :=
                if !was_playing then { new_sink0 with paused := true } else new_sink0
              let st := { w.state with
                current_position := position
                is_playing := was_playing }
              some ({ w with
                  sink := some new_sink
                  symphonia_source := stored
                  state := st
                  visual_position := position
                  audio_start_time := if was_playing then some now else none },
                [.StateChanged st])
    match instant with
    | some out => (out.1, out.2, some .native)
    | none =>
      let w1 := { w with sink := none }
      let out := play_item_with_offset w1 env now current_song position
      match out.result with
      | .error _ => (out.w, out.events, some .restart)
      | .ok _ =>
        let step : Worker × List PlayerEvent :=
          if !was_playing then
            match out.w.sink with
            | some s =>
              let st := { out.w.state with is_playing := false }
              ({ out.w with
                  sink := some { s with paused := true }
                  state := st
                  audio_start_time := none }, [])
            | none => (out.w, [])
          else (out.w, [])
        (step.1, out.events ++ step.2 ++ [.StateChanged step.1.state], some .restart)

/-- The command set of the actor (`PlayerCommand`). -/
inductive PlayerCommand where
  | PlayItem (item : QueueItem)
  | Pause
  | Resume
  | Stop
  | SetVolume (v : ℚ)
  | Seek (position : ℚ)
  | ToggleShuffle
  | SetRepeatMode (mode : RepeatMode)
  | GetState
  | NextTrack
  | PreviousTrack
  | Shutdown
deriving DecidableEq

/-- Values sent back on reply channels: the `PlayItem` result and the
`GetState` snapshot. -/
inductive Reply where
  | playResult (r : Except String Unit)
  | stateSnapshot (s : PlaybackState)

/-- One iteration of `AudioPlayerWorker::run`'s command arm. -/
def run_step (w : Worker) (env : PlayerEnv) (now : ℚ) (cmd : PlayerCommand) :
    Worker × List PlayerEvent × List Reply :=
  match cmd with
  | .PlayItem item =>
    let out := play_item w env now item
    (out.w, out.events, [.playResult out.result])
  | .Pause =>
    let step := pause w now
    (step.1, step.2, [])
  | .Resume =>
    let step := resume w now
    (step.1, step.2, [])
  | .Stop =>
    let step := stop w
    (step.1, step.2, [])
  | .SetVolume v =>
    let step := set_volume w v
    (step.1, step.2, [])
  | .Seek position =>
    let step := seek w env now position
    (step.1, step.2.1, [])
  | .ToggleShuffle =>
    let step := toggle_shuffle w
    (step.1, step.2, [])
  | .SetRepeatMode mode =>
    let step := set_repeat_mode w mode
    (step.1, step.2, [])
  | .GetState =>
    let step := update_position w now
    (step.1, step.2, [.stateSnapshot step.1.state])
  | .NextTrack =>
    let step := next_track w env now
    (step.1, step.2, [])
  | .PreviousTrack =>
    let step := previous_track w env now
    (step.1, step.2, [])
  | .Shutdown => (w, [], [])

/-- The processing loop: commands are handled strictly in arrival order
(each tagged with its wall-clock instant); `Shutdown` breaks the loop. -/
def run_loop (w : Worker) (env : PlayerEnv) :
    List (ℚ × PlayerCommand) → Worker × List PlayerEvent × List Reply
  | [] => (w, [], [])
  | (now, cmd) :: rest =>
    match cmd with
    | .Shutdown => (w, [], [])
    | _ =>
      let step := run_step w env now cmd
      let next := run_loop step.1 env rest
      (next.1, step.2.1 ++ next.2.1, step.2.2 ++ next.2.2)

/-! ### Position tracking (C2) -/

lemma update_position_complete {w : Worker} {start now : ℚ}
    (hplay : w.state.is_playing = true) (hanchor : w.audio_start_time = some start)
    (hc : w.state.duration > 0 ∧ w.visual_position + (now - start) ≥ w.state.duration) :
    (update_position w now).1 =
      { w with
          state := { w.state with
            current_position := w.state.duration
            is_playing := false }
          audio_start_time := none } := by
  unfold update_position
  rw [hanchor]
  dsimp only
  rw [if_pos hplay, if_pos hc]

lemma update_position_progress {w : Worker} {start now : ℚ}
    (hplay : w.state.is_playing = true) (hanchor : w.audio_start_time = some start)
    (hc : ¬ (w.state.duration > 0 ∧ w.visual_position + (now - start) ≥ w.state.duration)) :
    (update_position w now).1.state.current_position =
      w.visual_position + (now - start) ∧
    (update_position w now).1.state.is_playing = true ∧
    (update_position w now).1.audio_start_time = some start ∧
    (update_position w now).1.visual_position = w.visual_position ∧
    (update_position w now).1.state.duration = w.state.duration ∧
    (update_position w now).1.sink = w.sink := by
  unfold update_position
  rw [hanchor]
  dsimp only
  rw [if_pos hplay, if_neg hc]
  by_cases hr : now - w.last_position_update ≥ 1 / 2
  · rw [if_pos hr]
    exact ⟨rfl, hplay, rfl, rfl, rfl, rfl⟩
  · rw [if_neg hr]
    exact ⟨rfl, hplay, rfl, rfl, rfl, rfl⟩

lemma update_position_not_playing {w : Worker} {now : ℚ}
    (h : w.state.is_playing = false) : (update_position w now).1 = w := by
  unfold update_position
  rcases ha : w.audio_start_time with _ | start
  · rfl
  · dsimp only
    rw [if_neg]
    simp [h]

/-- C2: while a track is playing, `update_position` computes
`current_position = visual_position + (now − audio_start_time)`; successive
updates with no intervening seek or pause report non-decreasing positions;
and once the computed position reaches a positive duration, the update pins
`current_position` exactly to `duration`, sets `is_playing` to false and
clears the `audio_start_time` anchor. -/
theorem update_position_formula_monotone_completion
    (w : Worker) (start t1 t2 : ℚ)
    (hplay : w.state.is_playing = true)
    (hanchor : w.audio_start_time = some start)
    (h12 : t1 ≤ t2) :
    (¬ (w.state.duration > 0 ∧ w.visual_position + (t1 - start) ≥ w.state.duration) →
      (update_position w t1).1.state.current_position =
        w.visual_position + (t1 - start)) ∧
    (update_position w t1).1.state.current_position ≤
      (update_position (update_position w t1).1 t2).1.state.current_position ∧
    ((w.state.duration > 0 ∧ w.visual_position + (t1 - start) ≥ w.state.duration) →
      (update_position w t1).1.state.current_position = w.state.duration ∧
      (update_position w t1).1.state.is_playing = false ∧
      (update_position w t1).1.audio_start_time = none) := by
  by_cases hc : w.state.duration > 0 ∧ w.visual_position + (t1 - start) ≥ w.state.duration
  · rw [update_position_complete hplay hanchor hc]
    refine ⟨fun hn => absurd hc hn, ?_, fun _ => ⟨rfl, rfl, rfl⟩⟩
    rw [update_position_not_playing rfl]
  · obtain ⟨hpos, hpl, han, hvis, hdur, -⟩ := update_position_progress hplay hanchor hc
    refine ⟨fun _ => hpos, ?_, fun h => absurd h hc⟩
    set w1 := (update_position w t1).1 with hw1
    by_cases hc2 : w1.state.duration > 0 ∧ w1.visual_position + (t2 - start) ≥ w1.state.duration
    · rw [update_position_complete hpl han hc2]
      dsimp only
      rw [hpos, hdur]
      rw [hdur, hvis] at hc2
      push_neg at hc
      exact le_of_lt (hc hc2.1)
    · obtain ⟨hpos2, -, -, -, -, -⟩ := update_position_progress hpl han hc2
      rw [hpos2, hpos, hvis]
      linarith

def srcW : SymphoniaSource :=
  { sample_rate := 44100, channels := 2, total_duration := some 3, pos := 0 }

def itemW : QueueItem :=
  { id := "song1", name := "Song", artists := ["A"], album := none
    duration_ticks := some 30000000, stream_url := "https://x/y" }

def playingW : Worker :=
  { sink := some { paused := false, volume := 1 }
    symphonia_source := some srcW
    state := { is_playing := true, current_position := 0, duration := 3, volume := 1
               is_shuffled := false, repeat_mode := .None, current_song := some itemW }
    queue := []
    current_index := none
    last_position_update := 0
    audio_start_time := some 0
    visual_position := 0
    cached_audio_data := some [1, 2, 3]
    cached_song_id := some "song1" }

theorem update_position_formula_monotone_completion_witness :
    (playingW.state.is_playing = true ∧ playingW.audio_start_time = some 0 ∧
      (1 : ℚ) ≤ 2) ∧
    ((¬ (playingW.state.duration > 0 ∧
        playingW.visual_position + (1 - 0) ≥ playingW.state.duration) →
      (update_position playingW 1).1.state.current_position =
        playingW.visual_position + (1 - 0)) ∧
    (update_position playingW 1).1.state.current_position ≤
      (update_position (update_position playingW 1).1 2).1.state.current_position ∧
    ((playingW.state.duration > 0 ∧
        playingW.visual_position + (1 - 0) ≥ playingW.state.duration) →
      (update_position playingW 1).1.state.current_position = playingW.state.duration ∧
      (update_position playingW 1).1.state.is_playing = false ∧
      (update_position playingW 1).1.audio_start_time = none)) :=
  ⟨⟨rfl, rfl, by norm_num⟩,
   update_position_formula_monotone_completion playingW 0 1 2 rfl rfl (by norm_num)⟩

/-! ### Pause/resume (C8) -/

lemma pause_no_sink {w : Worker} {t : ℚ} (hs : w.sink = none) :
    pause w t = (w, []) := by
  unfold pause
  rw [hs]

lemma resume_no_sink {w : Worker} {t : ℚ} (hs : w.sink = none) :
    resume w t = (w, []) := by
  unfold resume
  rw [hs]

lemma resume_with_sink {w : Worker} {s : SinkState} {t2 : ℚ} (hs : w.sink = some s) :
    (resume w t2).1 =
      { w with
          sink := some { s with paused := false }
          state := { w.state with is_playing := true }
          audio_start_time := some t2
          visual_position := w.state.current_position } := by
  unfold resume
  rw [hs]

lemma pause_fields (t1 : ℚ) {w : Worker} {s : SinkState} {start : ℚ}
    (hs : w.sink = some s) (hplay : w.state.is_playing = true)
    (hanchor : w.audio_start_time = some start) :
    (pause w t1).1.visual_position = w.visual_position ∧
    (pause w t1).1.audio_start_time = none ∧
    (pause w t1).1.state.is_playing = false ∧
    (pause w t1).1.sink = some { s with paused := true } ∧
    (pause w t1).1.state.duration = w.state.duration ∧
    (w.state.duration > 0 → (pause w t1).1.state.current_position ≤ w.state.duration) := by
  unfold pause
  rw [hs]
  dsimp only
  have hplay1 : ({ w with sink := some { s with paused := true } } : Worker).state.is_playing
      = true := hplay
  have hanchor1 : ({ w with sink := some { s with paused := true } } : Worker).audio_start_time
      = some start := hanchor
  by_cases hc : ({ w with sink := some { s with paused := true } } : Worker).state.duration > 0 ∧
      ({ w with sink := some { s with paused := true } } : Worker).visual_position + (t1 - start) ≥
      ({ w with sink := some { s with paused := true } } : Worker).state.duration
  · rw [update_position_complete hplay1 hanchor1 hc]
    exact ⟨rfl, rfl, rfl, rfl, rfl, fun _ => le_refl _⟩
  · obtain ⟨hpos, hpl, han, hvis, hdur, hsink⟩ :=
      update_position_progress hplay1 hanchor1 hc
    refine ⟨hvis, rfl, rfl, hsink, hdur, ?_⟩
    intro hd
    push_neg at hc
    rw [hpos]
    exact le_of_lt (hc hd)

lemma pause_progress_position (t1 : ℚ) {w : Worker} {s : SinkState} {start : ℚ}
    (hs : w.sink = some s) (hplay : w.state.is_playing = true)
    (hanchor : w.audio_start_time = some start)
    (hc : ¬ (w.state.duration > 0 ∧
      w.visual_position + (t1 - start) ≥ w.state.duration)) :
    (pause w t1).1.state.current_position = w.visual_position + (t1 - start) := by
  unfold pause
  rw [hs]
  dsimp only
  have hplay1 : ({ w with sink := some { s with paused := true } } : Worker).state.is_playing
      = true := hplay
  have hanchor1 : ({ w with sink := some { s with paused := true } } : Worker).audio_start_time
      = some start := hanchor
  have hc1 : ¬ (({ w with sink := some { s with paused := true } } : Worker).state.duration > 0 ∧
      ({ w with sink := some { s with paused := true } } : Worker).visual_position + (t1 - start) ≥
      ({ w with sink := some { s with paused := true } } : Worker).state.duration) := hc
  obtain ⟨hpos, -, -, -, -, -⟩ := update_position_progress hplay1 hanchor1 hc1
  exact hpos

/-- C8 counterexample: the claim says Pause snapshots the elapsed time into
`visual_position`.  In the code Pause leaves `visual_position` unchanged —
here it stays 0 while the elapsed-time snapshot 1 is written into
`current_position`. -/
theorem pause_visual_position_counterexample :
    (pause playingW 1).1.visual_position = 0 ∧
    (pause playingW 1).1.state.current_position = 1 ∧
    (0 : ℚ) ≠ 1 := by
  have hs : playingW.sink = some { paused := false, volume := 1 } := rfl
  have hc : ¬ (playingW.state.duration > 0 ∧
      playingW.visual_position + ((1 : ℚ) - 0) ≥ playingW.state.duration) := by
    rintro ⟨-, h2⟩
    have h2' : (0 : ℚ) + (1 - 0) ≥ 3 := h2
    norm_num at h2'
  obtain ⟨pVis, -, -, -, -, -⟩ := pause_fields 1 hs rfl rfl
  have hpos := pause_progress_position 1 hs rfl rfl hc
  refine ⟨?_, ?_, by norm_num⟩
  · rw [pVis]
    rfl
  · rw [hpos]
    show (0 : ℚ) + (1 - 0) = 1
    norm_num

/-- C8 (amended): with no sink, Pause and Resume are silent no-ops (state
unchanged, no event emitted).  With a sink, from a playing state Pause
snapshots `visual_position + elapsed` into `current_position` — leaving
`visual_position` itself unchanged — and clears `audio_start_time`; Resume
re-anchors `audio_start_time` to now and copies `current_position` into
`visual_position`; hence the position reported immediately after Resume
equals the position at the moment of Pause. -/
theorem pause_resume_round_trip (w : Worker) (t1 t2 : ℚ) :
    (w.sink = none → pause w t1 = (w, []) ∧ resume w t1 = (w, [])) ∧
    (∀ s start, w.sink = some s → w.state.is_playing = true →
      w.audio_start_time = some start →
      (pause w t1).1.visual_position = w.visual_position ∧
      (pause w t1).1.audio_start_time = none ∧
      (pause w t1).1.state.is_playing = false ∧
      (resume (pause w t1).1 t2).1.audio_start_time = some t2 ∧
      (resume (pause w t1).1 t2).1.visual_position =
        (pause w t1).1.state.current_position ∧
      (update_position (resume (pause w t1).1 t2).1 t2).1.state.current_position =
        (pause w t1).1.state.current_position) := by
  constructor
  · intro hs
    exact ⟨pause_no_sink hs, resume_no_sink hs⟩
  · intro s start hs hplay hanchor
    obtain ⟨pVis, pAnchor, pPlay, pSink, pDur, pBound⟩ :=
      pause_fields t1 hs hplay hanchor
    rw [resume_with_sink pSink]
    refine ⟨pVis, pAnchor, pPlay, rfl, rfl, ?_⟩
    set wp := (pause w t1).1 with hwp
    by_cases hc : ({ wp with
        sink := some { paused := false, volume := s.volume }
        state := { wp.state with is_playing := true }
        audio_start_time := some t2
        visual_position := wp.state.current_position } : Worker).state.duration > 0 ∧
        ({ wp with
        sink := some { paused := false, volume := s.volume }
        state := { wp.state with is_playing := true }
        audio_start_time := some t2
        visual_position := wp.state.current_position } : Worker).visual_position + (t2 - t2) ≥
        ({ wp with
        sink := some { paused := false, volume := s.volume }
        state := { wp.state with is_playing := true }
        audio_start_time := some t2
        visual_position := wp.state.current_position } : Worker).state.duration
    · rw [update_position_complete rfl rfl hc]
      dsimp only
      dsimp only at hc
      rw [pDur] at hc
      have hd1 := hc.1
      have hd2 := hc.2
      have hb := pBound hc.1
      refine le_antisymm ?_ ?_
      · linarith [pDur.le, pDur.ge]
      · linarith [pDur.le, pDur.ge]
    · obtain ⟨hpos2, -, -, -, -, -⟩ := update_position_progress rfl rfl hc
      rw [hpos2]
      dsimp only
      ring

theorem pause_resume_round_trip_witness :
    (playingW.sink = some { paused := false, volume := 1 } ∧
      playingW.state.is_playing = true ∧ playingW.audio_start_time = some 0) ∧
    ((playingW.sink = none → pause playingW 1 = (playingW, []) ∧
        resume playingW 1 = (playingW, [])) ∧
    (∀ s start, playingW.sink = some s → playingW.state.is_playing = true →
      playingW.audio_start_time = some start →
      (pause playingW 1).1.visual_position = playingW.visual_position ∧
      (pause playingW 1).1.audio_start_time = none ∧
      (pause playingW 1).1.state.is_playing = false ∧
      (resume (pause playingW 1).1 2).1.audio_start_time = some 2 ∧
      (resume (pause playingW 1).1 2).1.visual_position =
        (pause playingW 1).1.state.current_position ∧
      (update_position (resume (pause playingW 1).1 2).1 2).1.state.current_position =
        (pause playingW 1).1.state.current_position)) :=
  ⟨⟨rfl, rfl, rfl⟩, pause_resume_round_trip playingW 1 2⟩

/-! ### Byte-cache invariant and panic safety (C10) -/

/-- The two in-memory byte-cache fields are set and cleared together. -/
def CacheInv (w : Worker) : Prop :=
  w.cached_audio_data.isSome = w.cached_song_id.isSome

instance (w : Worker) : Decidable (CacheInv w) := by
  unfold CacheInv
  infer_instance

/-- Joint shape analysis of `resolve_audio_data`: it never panics (the
`unwrap` in the cache-hit branch is guarded by `isSome`); on `err` the
worker is unchanged; on `ok` the returned worker caches exactly the
returned bytes under the item's id. -/
lemma resolve_audio_data_spec (w0 : Worker) (env : PlayerEnv) (item : QueueItem) :
    resolve_audio_data w0 env item ≠ .panic ∧
    (∀ w msg, resolve_audio_data w0 env item = .err w msg → w = w0) ∧
    (∀ w data, resolve_audio_data w0 env item = .ok w data →
      w.cached_audio_data = some data ∧ w.cached_song_id = some item.id ∧
      w.sink = w0.sink ∧ w.state = w0.state ∧
      w.queue = w0.queue ∧ w.current_index = w0.current_index) := by
  unfold resolve_audio_data
  by_cases h : w0.cached_song_id = some item.id ∧ w0.cached_audio_data.isSome
  · rw [if_pos h]
    obtain ⟨h1, h2⟩ := h
    generalize hd : w0.cached_audio_data = cd at h2 ⊢
    cases cd with
    | none => simp at h2
    | some d =>
      refine ⟨by simp, ?_, ?_⟩
      · intro w msg hw
        cases hw
      · intro w data hw
        cases hw
        exact ⟨hd, h1, rfl, rfl, rfl, rfl⟩
  · rw [if_neg h]
    by_cases hf : startsWithFileScheme item.stream_url = true
    · rw [if_pos hf]
      generalize hr : env.read_file (item.stream_url.drop 7) = r
      cases r with
      | error e =>
        refine ⟨by simp, ?_, ?_⟩
        · intro w msg hw
          cases hw
          rfl
        · intro w data hw
          cases hw
      | ok data =>
        refine ⟨by simp, ?_, ?_⟩
        · intro w msg hw
          cases hw
        · intro w data' hw
          cases hw
          exact ⟨rfl, rfl, rfl, rfl, rfl, rfl⟩
    · rw [if_neg hf]
      generalize hg : env.http_get item.stream_url = g
      cases g with
      | error e =>
        refine ⟨by simp, ?_, ?_⟩
        · intro w msg hw
          cases hw
          rfl
        · intro w data hw
          cases hw
      | ok resp =>
        dsimp only
        generalize hb : resp.bytes = b
        cases b with
        | error e =>
          refine ⟨by simp, ?_, ?_⟩
          · intro w msg hw
            cases hw
            rfl
          · intro w data hw
            cases hw
        | ok data =>
          refine ⟨by simp, ?_, ?_⟩
          · intro w msg hw
            cases hw
          · intro w data' hw
            cases hw
            exact ⟨rfl, rfl, rfl, rfl, rfl, rfl⟩

lemma resolve_audio_data_ne_panic (w0 : Worker) (env : PlayerEnv) (item : QueueItem) :
    resolve_audio_data w0 env item ≠ .panic :=
  (resolve_audio_data_spec w0 env item).1

lemma resolve_audio_data_err_eq {w0 w : Worker} {env : PlayerEnv} {item : QueueItem}
    {msg : String} (h : resolve_audio_data w0 env item = .err w msg) : w = w0 :=
  (resolve_audio_data_spec w0 env item).2.1 w msg h

lemma resolve_audio_data_ok_cached {w0 w : Worker} {env : PlayerEnv}
    {item : QueueItem} {data : List Nat}
    (h : resolve_audio_data w0 env item = .ok w data) :
    w.cached_audio_data = some data ∧ w.cached_song_id = some item.id :=
  ⟨((resolve_audio_data_spec w0 env item).2.2 w data h).1,
   ((resolve_audio_data_spec w0 env item).2.2 w data h).2.1⟩

lemma resolve_audio_data_ok_frame {w0 w : Worker} {env : PlayerEnv}
    {item : QueueItem} {data : List Nat}
    (h : resolve_audio_data w0 env item = .ok w data) :
    w.sink = w0.sink ∧ w.state = w0.state :=
  ⟨((resolve_audio_data_spec w0 env item).2.2 w data h).2.2.1,
   ((resolve_audio_data_spec w0 env item).2.2 w data h).2.2.2.1⟩

lemma resolve_audio_data_ok_index_queue {w0 w : Worker} {env : PlayerEnv}
    {item : QueueItem} {data : List Nat}
    (h : resolve_audio_data w0 env item = .ok w data) :
    w.queue = w0.queue ∧ w.current_index = w0.current_index :=
  ⟨((resolve_audio_data_spec w0 env item).2.2 w data h).2.2.2.2.1,
   ((resolve_audio_data_spec w0 env item).2.2 w data h).2.2.2.2.2⟩

/-- The result of `play_item_with_offset` in terms of the resolved state:
either an error with the resolved worker unchanged, or success where only
sink, stored source, playback state and bookkeeping differ from the
resolved worker. -/
lemma play_item_with_offset_cases (w0 : Worker) (env : PlayerEnv) (now : ℚ)
    (item : QueueItem) (offset_seconds : ℚ) :
    (play_item_with_offset w0 env now item offset_seconds).panicked = false ∧
    ((∃ w msg, resolve_audio_data w0 env item = .err w msg ∧
        (play_item_with_offset w0 env now item offset_seconds).w = w0 ∧
        (play_item_with_offset w0 env now item offset_seconds).result = .error msg) ∨
     (∃ w data, resolve_audio_data w0 env item = .ok w data ∧
        (play_item_with_offset w0 env now item offset_seconds).w.cached_audio_data =
          w.cached_audio_data ∧
        (play_item_with_offset w0 env now item offset_seconds).w.cached_song_id =
          w.cached_song_id ∧
        ((∃ msg, (play_item_with_offset w0 env now item offset_seconds).result = .error msg ∧
            (play_item_with_offset w0 env now item offset_seconds).w = w) ∨
         ((play_item_with_offset w0 env now item offset_seconds).result = .ok () ∧
          (play_item_with_offset w0 env now item offset_seconds).w.sink =
            some { paused := false, volume := w.state.volume } ∧
          (play_item_with_offset w0 env now item offset_seconds).w.state.is_playing = true ∧
          (play_item_with_offset w0 env now item offset_seconds).w.state.current_position =
            offset_seconds ∧
          (play_item_with_offset w0 env now item offset_seconds).w.state.current_song =
            some item ∧
          (play_item_with_offset w0 env now item offset_seconds).w.audio_start_time =
            some now ∧
          (play_item_with_offset w0 env now item offset_seconds).w.visual_position =
            offset_seconds ∧
          (play_item_with_offset w0 env now item offset_seconds).w.current_index =
            w.current_index ∧
          (play_item_with_offset w0 env now item offset_seconds).w.queue = w.queue)))) := by
  unfold play_item_with_offset
  generalize hres : resolve_audio_data w0 env item = r
  cases r with
  | panic => exact absurd hres (resolve_audio_data_ne_panic w0 env item)
  | err w msg =>
    exact ⟨rfl, Or.inl ⟨w, msg, rfl, by rw [resolve_audio_data_err_eq hres], rfl⟩⟩
  | ok w data =>
    dsimp only
    obtain ⟨hcd, hcs⟩ := resolve_audio_data_ok_cached hres
    generalize hfd : env.from_data data = fd
    cases fd with
    | error e => exact ⟨rfl, Or.inr ⟨w, data, rfl, rfl, rfl, Or.inl ⟨e, rfl, rfl⟩⟩⟩
    | ok src0 =>
      dsimp only
      generalize hsk : (if offset_seconds > 0 then seek_to_time env src0 offset_seconds
          else Except.ok src0) = sk
      cases sk with
      | error e => exact ⟨rfl, Or.inr ⟨w, data, rfl, rfl, rfl, Or.inl ⟨e, rfl, rfl⟩⟩⟩
      | ok src =>
        dsimp only
        generalize hsn : env.sink_new = sn
        cases sn with
        | error e =>
          exact ⟨rfl, Or.inr ⟨w, data, rfl, rfl, rfl,
            Or.inl ⟨"Failed to create sink: " ++ e, rfl, rfl⟩⟩⟩
        | ok u =>
          rw [hcd]
          dsimp only
          rw [hfd]
          dsimp only
          exact ⟨rfl, Or.inr ⟨w, data, rfl, hcd.symm, rfl,
            Or.inr ⟨rfl, rfl, rfl, rfl, rfl, rfl, rfl, rfl, rfl⟩⟩⟩

lemma play_item_with_offset_no_panic (w0 : Worker) (env : PlayerEnv) (now : ℚ)
    (item : QueueItem) (offset_seconds : ℚ) :
    (play_item_with_offset w0 env now item offset_seconds).panicked = false :=
  (play_item_with_offset_cases w0 env now item offset_seconds).1

lemma play_item_with_offset_inv {w0 : Worker} (env : PlayerEnv) (now : ℚ)
    (item : QueueItem) (offset_seconds : ℚ) (hinv : CacheInv w0) :
    CacheInv (play_item_with_offset w0 env now item offset_seconds).w := by
  rcases (play_item_with_offset_cases w0 env now item offset_seconds).2 with
    ⟨w, msg, -, hw, -⟩ | ⟨w, data, hok, hcd, hcs, -⟩
  · rw [hw]
    exact hinv
  · obtain ⟨hcd', hcs'⟩ := resolve_audio_data_ok_cached hok
    unfold CacheInv
    rw [hcd, hcs, hcd', hcs']
    rfl

lemma update_position_cached (w : Worker) (now : ℚ) :
    (update_position w now).1.cached_audio_data = w.cached_audio_data ∧
    (update_position w now).1.cached_song_id = w.cached_song_id := by
  unfold update_position
  generalize w.audio_start_time = a
  cases a with
  | none => exact ⟨rfl, rfl⟩
  | some start =>
    dsimp only
    by_cases hp : w.state.is_playing = true
    · rw [if_pos hp]
      by_cases hc : w.state.duration > 0 ∧
          w.visual_position + (now - start) ≥ w.state.duration
      · rw [if_pos hc]
        exact ⟨rfl, rfl⟩
      · rw [if_neg hc]
        by_cases hr : now - w.last_position_update ≥ 1 / 2
        · rw [if_pos hr]
          exact ⟨rfl, rfl⟩
        · rw [if_neg hr]
          exact ⟨rfl, rfl⟩
    · rw [if_neg hp]
      exact ⟨rfl, rfl⟩

lemma pause_cached (w : Worker) (now : ℚ) :
    (pause w now).1.cached_audio_data = w.cached_audio_data ∧
    (pause w now).1.cached_song_id = w.cached_song_id := by
  unfold pause
  generalize w.sink = s
  cases s with
  | none => exact ⟨rfl, rfl⟩
  | some sink =>
    dsimp only
    exact update_position_cached { w with sink := some { sink with paused := true } } now

lemma resume_cached (w : Worker) (now : ℚ) :
    (resume w now).1.cached_audio_data = w.cached_audio_data ∧
    (resume w now).1.cached_song_id = w.cached_song_id := by
  unfold resume
  generalize w.sink = s
  cases s with
  | none => exact ⟨rfl, rfl⟩
  | some sink => exact ⟨rfl, rfl⟩

lemma play_item_inv (w : Worker) (env : PlayerEnv) (now : ℚ) (item : QueueItem)
    (hinv : CacheInv w) : CacheInv (play_item w env now item).w := by
  unfold play_item
  by_cases h : w.cached_song_id ≠ some item.id
  · rw [if_pos h]
    exact play_item_with_offset_inv env now item 0 rfl
  · rw [if_neg h]
    exact play_item_with_offset_inv env now item 0 hinv

lemma next_track_cached_cases (w : Worker) (env : PlayerEnv) (now : ℚ) :
    (next_track w env now).1 = w ∨
    ∃ w1 item, (next_track w env now).1 = (play_item w1 env now item).w ∧
      w1.cached_audio_data = w.cached_audio_data ∧
      w1.cached_song_id = w.cached_song_id := by
  unfold next_track
  by_cases hq : w.queue.isEmpty = true
  · rw [if_pos hq]
    exact Or.inl rfl
  · rw [if_neg hq]
    dsimp only
    generalize (match w.current_index with
      | some index =>
        if index + 1 ≥ w.queue.length then
          match w.state.repeat_mode with
          | RepeatMode.All => some 0
          | _ => none
        else some (index + 1)
      | none => some 0) = ni
    cases ni with
    | none => exact Or.inl rfl
    | some index =>
      dsimp only
      generalize w.queue[index]? = qi
      cases qi with
      | none => exact Or.inl rfl
      | some item =>
        exact Or.inr ⟨{ w with current_index := some index }, item, rfl, rfl, rfl⟩

lemma previous_track_cached_cases (w : Worker) (env : PlayerEnv) (now : ℚ) :
    (previous_track w env now).1 = w ∨
    ∃ w1 item, (previous_track w env now).1 = (play_item w1 env now item).w ∧
      w1.cached_audio_data = w.cached_audio_data ∧
      w1.cached_song_id = w.cached_song_id := by
  unfold previous_track
  by_cases hq : w.queue.isEmpty = true
  · rw [if_pos hq]
    exact Or.inl rfl
  · rw [if_neg hq]
    dsimp only
    generalize (match w.current_index with
      | some index =>
        if index = 0 then
          match w.state.repeat_mode with
          | RepeatMode.All => some (w.queue.length - 1)
          | _ => none
        else some (index - 1)
      | none => some (w.queue.length - 1)) = pi
    cases pi with
    | none => exact Or.inl rfl
    | some index =>
      dsimp only
      generalize w.queue[index]? = qi
      cases qi with
      | none => exact Or.inl rfl
      | some item =>
        exact Or.inr ⟨{ w with current_index := some index }, item, rfl, rfl, rfl⟩

lemma seek_cached_cases (w : Worker) (env : PlayerEnv) (now position : ℚ) :
    ((seek w env now position).1.cached_audio_data = w.cached_audio_data ∧
     (seek w env now position).1.cached_song_id = w.cached_song_id) ∨
    (∃ song, w.state.current_song = some song ∧
      (seek w env now position).1.cached_audio_data =
        (play_item_with_offset { w with sink := none } env now song position).w.cached_audio_data ∧
      (seek w env now position).1.cached_song_id =
        (play_item_with_offset { w with sink := none } env now song position).w.cached_song_id) := by
  unfold seek
  generalize hcs : w.state.current_song = cs
  cases cs with
  | none => exact Or.inl ⟨rfl, rfl⟩
  | some current_song =>
    dsimp only
    generalize hinst : (match w.cached_audio_data with
      | none => none
      | some cached_data =>
        match env.from_data cached_data with
        | Except.error _ => none
        | Except.ok new_source0 =>
          match seek_to_time env new_source0 position with
          | Except.error _ => none
          | Except.ok _new_source =>
            match env.sink_new with
            | Except.error _ => none
            | Except.ok _ =>
              let new_sink0 : SinkState := { paused := false, volume := w.state.volume }
              let stored : Option SymphoniaSource :=
                match env.from_data cached_data with
                | Except.ok s =>
                  match seek_to_time env s position with
                  | Except.ok s2 => some s2
                  | Except.error _ => some s
                | Except.error _ => w.symphonia_source
              let new_sink :=
                if !w.state.is_playing then { new_sink0 with paused := true } else new_sink0
              let st := { w.state with
                current_position := position
                is_playing := w.state.is_playing }
              some ({ w with
                  sink := some new_sink
                  symphonia_source := stored
                  state := st
                  visual_position := position
                  audio_start_time := if w.state.is_playing then some now else none },
                [PlayerEvent.StateChanged st])) = inst
    cases inst with
    | some out =>
      -- the instant path leaves the byte cache untouched
      refine Or.inl ?_
      have : out.1.cached_audio_data = w.cached_audio_data ∧
          out.1.cached_song_id = w.cached_song_id := by
        revert hinst
        split
        · intro h
          cases h
        · split
          · intro h
            cases h
          · split
            · intro h
              cases h
            · split
              · intro h
                cases h
              · intro h
                dsimp only at h
                cases h
                exact ⟨rfl, rfl⟩
      exact this
    | none =>
      dsimp only
      refine Or.inr ⟨current_song, rfl, ?_, ?_⟩ <;>
        · split
          · rfl
          · dsimp only
            split
            · split
              · rfl
              · rfl
            · rfl

lemma seek_inv (w : Worker) (env : PlayerEnv) (now position : ℚ)
    (hinv : CacheInv w) : CacheInv (seek w env now position).1 := by
  rcases seek_cached_cases w env now position with ⟨h1, h2⟩ | ⟨song, -, h1, h2⟩
  · unfold CacheInv at hinv ⊢
    rw [h1, h2]
    exact hinv
  · have hp : CacheInv (play_item_with_offset { w with sink := none } env now song
        position).w :=
      play_item_with_offset_inv env now song position hinv
    unfold CacheInv at hp ⊢
    rw [h1, h2]
    exact hp

lemma next_track_inv (w : Worker) (env : PlayerEnv) (now : ℚ) (hinv : CacheInv w) :
    CacheInv (next_track w env now).1 := by
  rcases next_track_cached_cases w env now with h | ⟨w1, item, h, hcd, hcs⟩
  · rw [h]
    exact hinv
  · rw [h]
    refine play_item_inv w1 env now item ?_
    unfold CacheInv at hinv ⊢
    rw [hcd, hcs]
    exact hinv

lemma previous_track_inv (w : Worker) (env : PlayerEnv) (now : ℚ)
    (hinv : CacheInv w) : CacheInv (previous_track w env now).1 := by
  rcases previous_track_cached_cases w env now with h | ⟨w1, item, h, hcd, hcs⟩
  · rw [h]
    exact hinv
  · rw [h]
    refine play_item_inv w1 env now item ?_
    unfold CacheInv at hinv ⊢
    rw [hcd, hcs]
    exact hinv

lemma pause_inv (w : Worker) (now : ℚ) (hinv : CacheInv w) :
    CacheInv (pause w now).1 := by
  obtain ⟨h1, h2⟩ := pause_cached w now
  unfold CacheInv at hinv ⊢
  rw [h1, h2]
  exact hinv

lemma resume_inv (w : Worker) (now : ℚ) (hinv : CacheInv w) :
    CacheInv (resume w now).1 := by
  obtain ⟨h1, h2⟩ := resume_cached w now
  unfold CacheInv at hinv ⊢
  rw [h1, h2]
  exact hinv

lemma update_position_inv (w : Worker) (now : ℚ) (hinv : CacheInv w) :
    CacheInv (update_position w now).1 := by
  obtain ⟨h1, h2⟩ := update_position_cached w now
  unfold CacheInv at hinv ⊢
  rw [h1, h2]
  exact hinv

/-- C10: every worker operation (every command the run loop dispatches)
preserves the invariant that `cached_audio_data` is `Some` exactly when
`cached_song_id` is `Some`, and the unconditional `unwrap` of
`cached_audio_data` performed in `play_item_with_offset` after resolving the
byte source never panics. -/
theorem worker_cache_invariant_no_panic
    (w : Worker) (env : PlayerEnv) (now : ℚ) (cmd : PlayerCommand)
    (item : QueueItem) (offset_seconds : ℚ) (hinv : CacheInv w) :
    CacheInv (run_step w env now cmd).1 ∧
    (play_item_with_offset w env now item offset_seconds).panicked = false := by
  refine ⟨?_, play_item_with_offset_no_panic w env now item offset_seconds⟩
  cases cmd with
  | PlayItem i => exact play_item_inv w env now i hinv
  | Pause => exact pause_inv w now hinv
  | Resume => exact resume_inv w now hinv
  | Stop => exact rfl
  | SetVolume v => exact hinv
  | Seek position => exact seek_inv w env now position hinv
  | ToggleShuffle => exact hinv
  | SetRepeatMode mode => exact hinv
  | GetState => exact update_position_inv w now hinv
  | NextTrack => exact next_track_inv w env now hinv
  | PreviousTrack => exact previous_track_inv w env now hinv
  | Shutdown => exact hinv

def envFailP : PlayerEnv :=
  { read_file := fun _ => .error "io"
    http_get := fun _ => .error "network"
    from_data := fun _ => .error "probe"
    native_seek := fun _ => .error "seek"
    sink_new := .error "sink" }

theorem worker_cache_invariant_no_panic_witness :
    CacheInv playingW ∧
    (CacheInv (run_step playingW envFailP 0 .Pause).1 ∧
     (play_item_with_offset playingW envFailP 0 itemW 0).panicked = false) :=
  ⟨by decide, worker_cache_invariant_no_panic playingW envFailP 0 .Pause itemW 0
    (by decide)⟩

/-! ### PlayItem failure handling (C3) -/

instance {e a : Type} [DecidableEq e] [DecidableEq a] : DecidableEq (Except e a) :=
  fun x y =>
    match x, y with
    | .error e1, .error e2 =>
      if h : e1 = e2 then isTrue (by rw [h]) else isFalse (by simp [h])
    | .ok a1, .ok a2 =>
      if h : a1 = a2 then isTrue (by rw [h]) else isFalse (by simp [h])
    | .error _, .ok _ => isFalse (by simp)
    | .ok _, .error _ => isFalse (by simp)


lemma play_item_with_offset_err_frame {w0 : Worker} (env : PlayerEnv) (now : ℚ)
    (item : QueueItem) (offset_seconds : ℚ) {msg : String}
    (h : (play_item_with_offset w0 env now item offset_seconds).result = .error msg) :
    (play_item_with_offset w0 env now item offset_seconds).w.sink = w0.sink ∧
    (play_item_with_offset w0 env now item offset_seconds).w.state.is_playing =
      w0.state.is_playing ∧
    (play_item_with_offset w0 env now item offset_seconds).w.state.current_song =
      w0.state.current_song := by
  rcases (play_item_with_offset_cases w0 env now item offset_seconds).2 with
    ⟨w, m, -, hw, -⟩ | ⟨w, data, hok, -, -, hsub⟩
  · rw [hw]
    exact ⟨rfl, rfl, rfl⟩
  · rcases hsub with ⟨m, hres, hw⟩ | ⟨hres, -⟩
    · obtain ⟨hsink, hstate⟩ := resolve_audio_data_ok_frame hok
      rw [hw, hsink, hstate]
      exact ⟨rfl, rfl, rfl⟩
    · rw [h] at hres
      cases hres

lemma play_item_err_frame (w : Worker) (env : PlayerEnv) (now : ℚ)
    (item : QueueItem) {msg : String}
    (h : (play_item w env now item).result = .error msg) :
    (play_item w env now item).w.sink = w.sink ∧
    (play_item w env now item).w.state.is_playing = w.state.is_playing ∧
    (play_item w env now item).w.state.current_song = w.state.current_song := by
  unfold play_item at h ⊢
  dsimp only at h ⊢
  by_cases hc : w.cached_song_id ≠ some item.id
  · rw [if_pos hc] at h ⊢
    exact play_item_with_offset_err_frame env now item 0 h
  · rw [if_neg hc] at h ⊢
    exact play_item_with_offset_err_frame env now item 0 h

def item2W : QueueItem :=
  { id := "song2", name := "Other", artists := [], album := none
    duration_ticks := none, stream_url := "https://x/z" }

/-- C3 counterexample: the claim says a failing PlayItem leaves the actor in
the Idle state (no active sink, `is_playing` false, no current song).  From
a playing worker, a PlayItem whose download fails leaves the previous sink
active, `is_playing` true and the previous song current — the prior state,
not Idle. -/
theorem play_item_failure_not_idle_counterexample :
    (play_item playingW envFailP 0 item2W).result =
      .error "Failed to download audio: network" ∧
    (play_item playingW envFailP 0 item2W).w.sink ≠ none ∧
    (play_item playingW envFailP 0 item2W).w.state.is_playing = true ∧
    (play_item playingW envFailP 0 item2W).w.state.current_song = some itemW := by
  refine ⟨by decide, ?_, by decide, by decide⟩
  intro hcontra
  rw [show (play_item playingW envFailP 0 item2W).w.sink =
    some { paused := false, volume := 1 } by decide] at hcontra
  cases hcontra

/-- C3 (amended): a PlayItem whose processing fails leaves the actor in its
prior playback state — sink, `is_playing` and `current_song` unchanged, so
an actor that was Idle remains Idle — reports the error through the
command's reply channel, and the processing loop continues with the
remaining commands. -/
theorem play_item_failure_prior_state_reply_loop
    (w : Worker) (env : PlayerEnv) (now : ℚ) (item : QueueItem) (msg : String)
    (rest : List (ℚ × PlayerCommand))
    (h : (play_item w env now item).result = .error msg) :
    ((play_item w env now item).w.sink = w.sink ∧
     (play_item w env now item).w.state.is_playing = w.state.is_playing ∧
     (play_item w env now item).w.state.current_song = w.state.current_song) ∧
    (run_step w env now (.PlayItem item)).2.2 = [.playResult (.error msg)] ∧
    run_loop w env ((now, .PlayItem item) :: rest) =
      ((run_loop (run_step w env now (.PlayItem item)).1 env rest).1,
       (run_step w env now (.PlayItem item)).2.1 ++
         (run_loop (run_step w env now (.PlayItem item)).1 env rest).2.1,
       (run_step w env now (.PlayItem item)).2.2 ++
         (run_loop (run_step w env now (.PlayItem item)).1 env rest).2.2) ∧
    (run_step w env now (.PlayItem item)).1 = (play_item w env now item).w := by
  refine ⟨play_item_err_frame w env now item h, ?_, rfl, rfl⟩
  have hr : (run_step w env now (.PlayItem item)).2.2 =
      [Reply.playResult (play_item w env now item).result] := rfl
  rw [hr, h]

theorem play_item_failure_prior_state_reply_loop_witness :
    (play_item playingW envFailP 0 item2W).result =
      .error "Failed to download audio: network" ∧
    (((play_item playingW envFailP 0 item2W).w.sink = playingW.sink ∧
      (play_item playingW envFailP 0 item2W).w.state.is_playing =
        playingW.state.is_playing ∧
      (play_item playingW envFailP 0 item2W).w.state.current_song =
        playingW.state.current_song) ∧
    (run_step playingW envFailP 0 (.PlayItem item2W)).2.2 =
      [.playResult (.error "Failed to download audio: network")] ∧
    run_loop playingW envFailP ((0, .PlayItem item2W) :: [(1, .GetState)]) =
      ((run_loop (run_step playingW envFailP 0 (.PlayItem item2W)).1 envFailP
          [(1, .GetState)]).1,
       (run_step playingW envFailP 0 (.PlayItem item2W)).2.1 ++
         (run_loop (run_step playingW envFailP 0 (.PlayItem item2W)).1 envFailP
           [(1, .GetState)]).2.1,
       (run_step playingW envFailP 0 (.PlayItem item2W)).2.2 ++
         (run_loop (run_step playingW envFailP 0 (.PlayItem item2W)).1 envFailP
           [(1, .GetState)]).2.2) ∧
    (run_step playingW envFailP 0 (.PlayItem item2W)).1 =
      (play_item playingW envFailP 0 item2W).w) :=
  ⟨by decide, play_item_failure_prior_state_reply_loop playingW envFailP 0 item2W
    "Failed to download audio: network" [(1, .GetState)] (by decide)⟩

/-! ### Queue navigation (C9) -/

lemma play_item_with_offset_index_queue (w0 : Worker) (env : PlayerEnv) (now : ℚ)
    (item : QueueItem) (offset_seconds : ℚ) :
    (play_item_with_offset w0 env now item offset_seconds).w.current_index =
      w0.current_index ∧
    (play_item_with_offset w0 env now item offset_seconds).w.queue = w0.queue := by
  rcases (play_item_with_offset_cases w0 env now item offset_seconds).2 with
    ⟨w, m, -, hw, -⟩ | ⟨w, data, hok, -, -, hsub⟩
  · rw [hw]
    exact ⟨rfl, rfl⟩
  · obtain ⟨hq, hi⟩ := resolve_audio_data_ok_index_queue hok
    rcases hsub with ⟨m, -, hw⟩ | ⟨-, -, -, -, -, -, -, hidx, hq2⟩
    · rw [hw]
      exact ⟨hi, hq⟩
    · exact ⟨hidx.trans hi, hq2.trans hq⟩

lemma play_item_index_queue (w : Worker) (env : PlayerEnv) (now : ℚ)
    (item : QueueItem) :
    (play_item w env now item).w.current_index = w.current_index ∧
    (play_item w env now item).w.queue = w.queue := by
  unfold play_item
  dsimp only
  by_cases hc : w.cached_song_id ≠ some item.id
  · rw [if_pos hc]
    exact play_item_with_offset_index_queue _ env now item 0
  · rw [if_neg hc]
    exact play_item_with_offset_index_queue _ env now item 0

/-- Worker with a three-item queue at index 0 and `RepeatMode::All`. -/
def queueW : Worker :=
  { sink := none
    symphonia_source := none
    state := { is_playing := false, current_position := 0, duration := 0, volume := 1
               is_shuffled := false, repeat_mode := .All, current_song := none }
    queue := [{ id := "qa", name := "A", artists := [], album := none
                duration_ticks := none, stream_url := "https://x/a" },
              { id := "qb", name := "B", artists := [], album := none
                duration_ticks := none, stream_url := "https://x/b" },
              { id := "qc", name := "C", artists := [], album := none
                duration_ticks := none, stream_url := "https://x/c" }]
    current_index := some 0
    last_position_update := 0
    audio_start_time := none
    visual_position := 0
    cached_audio_data := none
    cached_song_id := none }

/-- C9 counterexample: the claim says four consecutive NextTrack calls from
index 0 over a 3-item queue with `RepeatMode::All` return to index 0.  In
the code the wrap already happens on the third call, so the fourth lands on
index 1. -/
theorem next_track_four_calls_counterexample :
    (next_track (next_track (next_track (next_track queueW envFailP 0).1
        envFailP 0).1 envFailP 0).1 envFailP 0).1.current_index = some 1 ∧
    (some 1 : Option Nat) ≠ some 0 := by
  exact ⟨by decide, by decide⟩

/-- C9 (amended): with a non-empty queue and a current index, NextTrack at
the last index and PreviousTrack at index 0 wrap to the opposite end under
`RepeatMode::All` and are silent no-ops under any other mode; away from the
boundary they advance or retreat the index by one; with `RepeatMode::All`
and a 3-item queue, three (not four) consecutive NextTrack calls from
index 0 return to index 0. -/
theorem queue_navigation_boundary
    (w : Worker) (env : PlayerEnv) (now : ℚ) (i : Nat)
    (hq : w.queue ≠ []) (hidx : w.current_index = some i) :
    (i + 1 < w.queue.length →
      (next_track w env now).1.current_index = some (i + 1)) ∧
    (i + 1 ≥ w.queue.length → w.state.repeat_mode = .All →
      (next_track w env now).1.current_index = some 0) ∧
    (i + 1 ≥ w.queue.length → w.state.repeat_mode ≠ .All →
      next_track w env now = (w, [])) ∧
    (0 < i → i < w.queue.length →
      (previous_track w env now).1.current_index = some (i - 1)) ∧
    (i = 0 → w.state.repeat_mode = .All →
      (previous_track w env now).1.current_index = some (w.queue.length - 1)) ∧
    (i = 0 → w.state.repeat_mode ≠ .All →
      previous_track w env now = (w, [])) ∧
    (next_track (next_track (next_track queueW envFailP 0).1 envFailP 0).1
      envFailP 0).1.current_index = some 0 := by
  have hqe : w.queue.isEmpty = false := by
    rcases hql : w.queue with _ | ⟨x, xs⟩
    · exact absurd hql hq
    · rfl
  refine ⟨?_, ?_, ?_, ?_, ?_, ?_, by decide⟩
  · intro hlt
    unfold next_track
    rw [hqe]
    dsimp only
    rw [hidx]
    dsimp only
    rw [if_neg (not_le.mpr hlt)]
    dsimp only
    rw [List.getElem?_eq_getElem hlt]
    dsimp only
    exact (play_item_index_queue _ env now _).1
  · intro hge hall
    unfold next_track
    rw [hqe]
    dsimp only
    rw [hidx]
    dsimp only
    rw [if_pos hge, hall]
    dsimp only
    have h0 : 0 < w.queue.length := List.length_pos.mpr hq
    rw [List.getElem?_eq_getElem h0]
    dsimp only
    exact (play_item_index_queue _ env now _).1
  · intro hge hnall
    unfold next_track
    rw [hqe]
    dsimp only
    rw [hidx]
    dsimp only
    rw [if_pos hge]
    generalize hm : w.state.repeat_mode = m
    cases m with
    | All =>
      rw [hm] at hnall
      exact absurd rfl hnall
    | None => rfl
    | One => rfl
  · intro hpos hlt
    unfold previous_track
    rw [hqe]
    dsimp only
    rw [hidx]
    dsimp only
    rw [if_neg (Nat.pos_iff_ne_zero.mp hpos)]
    dsimp only
    have hlt' : i - 1 < w.queue.length := lt_of_le_of_lt (Nat.sub_le i 1) hlt
    rw [List.getElem?_eq_getElem hlt']
    dsimp only
    exact (play_item_index_queue _ env now _).1
  · intro h0 hall
    subst h0
    unfold previous_track
    rw [hqe]
    dsimp only
    rw [hidx]
    dsimp only
    rw [if_pos rfl, hall]
    dsimp only
    have hl : w.queue.length - 1 < w.queue.length :=
      Nat.sub_lt (List.length_pos.mpr hq) Nat.one_pos
    rw [List.getElem?_eq_getElem hl]
    dsimp only
    exact (play_item_index_queue _ env now _).1
  · intro h0 hnall
    subst h0
    unfold previous_track
    rw [hqe]
    dsimp only
    rw [hidx]
    dsimp only
    rw [if_pos rfl]
    generalize hm : w.state.repeat_mode = m
    cases m with
    | All =>
      rw [hm] at hnall
      exact absurd rfl hnall
    | None => rfl
    | One => rfl

theorem queue_navigation_boundary_witness :
    (queueW.queue ≠ [] ∧ queueW.current_index = some 0) ∧
    ((0 + 1 < queueW.queue.length →
      (next_track queueW envFailP 0).1.current_index = some (0 + 1)) ∧
    (0 + 1 ≥ queueW.queue.length → queueW.state.repeat_mode = .All →
      (next_track queueW envFailP 0).1.current_index = some 0) ∧
    (0 + 1 ≥ queueW.queue.length → queueW.state.repeat_mode ≠ .All →
      next_track queueW envFailP 0 = (queueW, [])) ∧
    (0 < 0 → 0 < queueW.queue.length →
      (previous_track queueW envFailP 0).1.current_index = some (0 - 1)) ∧
    (0 = 0 → queueW.state.repeat_mode = .All →
      (previous_track queueW envFailP 0).1.current_index =
        some (queueW.queue.length - 1)) ∧
    (0 = 0 → queueW.state.repeat_mode ≠ .All →
      previous_track queueW envFailP 0 = (queueW, [])) ∧
    (next_track (next_track (next_track queueW envFailP 0).1 envFailP 0).1
      envFailP 0).1.current_index = some 0) :=
  ⟨⟨by decide, by decide⟩, queue_navigation_boundary queueW envFailP 0 0
    (by decide) (by decide)⟩

/-! ### Seek: negative positions (C5) and fallback strategy (C4) -/

def envOkP : PlayerEnv :=
  { read_file := fun _ => .error "io"
    http_get := fun _ => .error "network"
    from_data := fun _ => .ok srcW
    native_seek := fun _ => .ok ()
    sink_new := .ok () }

/-- C5 counterexample: the claim says that after a Seek with a negative
position the state's `current_position` is not negative.  With a loaded
track and cached bytes, `Seek(-1)` stores `-1` into `current_position`
(while `seek_to_time` silently skips the decoder seek). -/
theorem seek_negative_position_counterexample :
    (seek playingW envOkP 0 (-1)).1.state.current_position = -1 ∧
    ((-1 : ℚ) < 0) := by
  exact ⟨by decide, by decide⟩

/-- C5 (amended): for non-positive targets `seek_to_time` returns Ok without
driving the decoder to a negative offset, but the Seek handler still writes
the requested value — negative included — into the state's
`current_position`. -/
theorem seek_negative_guard_and_state
    (src : SymphoniaSource) (env : PlayerEnv) (t : ℚ) (w : Worker)
    (now position : ℚ) (song : QueueItem) (data : List Nat)
    (s0 : SymphoniaSource)
    (ht : t ≤ 0)
    (hsong : w.state.current_song = some song)
    (hcd : w.cached_audio_data = some data)
    (hfd : env.from_data data = .ok s0)
    (hpos : position ≤ 0)
    (hsn : env.sink_new = .ok ()) :
    seek_to_time env src t = .ok src ∧
    (seek w env now position).1.state.current_position = position := by
  constructor
  · unfold seek_to_time
    rw [if_pos ht]
  · unfold seek
    rw [hsong]
    dsimp only
    rw [hcd]
    dsimp only
    rw [hfd]
    dsimp only
    rw [show seek_to_time env s0 position = .ok s0 by
      unfold seek_to_time
      rw [if_pos hpos]]
    dsimp only
    rw [hsn]

theorem seek_negative_guard_and_state_witness :
    ((-1 : ℚ) ≤ 0 ∧ playingW.state.current_song = some itemW ∧
      playingW.cached_audio_data = some [1, 2, 3] ∧
      envOkP.from_data [1, 2, 3] = .ok srcW ∧ envOkP.sink_new = .ok ()) ∧
    (seek_to_time envOkP srcW (-1) = .ok srcW ∧
     (seek playingW envOkP 0 (-1)).1.state.current_position = -1) :=
  ⟨⟨by decide, rfl, rfl, rfl, rfl⟩,
   seek_negative_guard_and_state srcW envOkP (-1) playingW 0 (-1) itemW [1, 2, 3]
     srcW (by decide) rfl rfl rfl (by decide) rfl⟩

def envSeekFailP : PlayerEnv :=
  { read_file := fun _ => .error "io"
    http_get := fun _ => .error "network"
    from_data := fun _ => .ok srcW
    native_seek := fun _ => .error "unsupported"
    sink_new := .ok () }

/-- C4 counterexample: the claim says that when native seek fails the engine
performs a sample-discarding fallback seek rather than any other recovery
mechanism.  With a loaded track, cached bytes and a failing native seek,
the recovery the worker actually performs is a full restart
(`SeekMethod.restart`), not `SeekMethod.sampleDiscard`. -/
theorem seek_fallback_method_counterexample :
    (seek playingW envSeekFailP 0 10).2.2 = some SeekMethod.restart ∧
    some SeekMethod.restart ≠ some SeekMethod.sampleDiscard := by
  exact ⟨by decide, by decide⟩

/-- C4 (amended): when the native seek fails for a positive target (the
instant path is unavailable), the worker's recovery mechanism is to re-run
`play_item_with_offset` at the requested position — a full restart, traced
as `SeekMethod.restart`; no sample-discarding decode loop exists. -/
theorem seek_native_failure_restarts
    (w : Worker) (env : PlayerEnv) (now position : ℚ) (song : QueueItem)
    (data : List Nat) (s0 : SymphoniaSource) (e : String)
    (hsong : w.state.current_song = some song)
    (hcd : w.cached_audio_data = some data)
    (hfd : env.from_data data = .ok s0)
    (hpos : 0 < position)
    (hns : env.native_seek position = .error e) :
    (seek w env now position).2.2 = some SeekMethod.restart := by
  unfold seek
  rw [hsong]
  dsimp only
  rw [hcd]
  dsimp only
  rw [hfd]
  dsimp only
  rw [show seek_to_time env s0 position = .error ("Seek failed: " ++ e) by
    unfold seek_to_time
    rw [if_neg (not_le.mpr hpos), hns]]
  dsimp only
  split
  · rfl
  · rfl

theorem seek_native_failure_restarts_witness :
    (playingW.state.current_song = some itemW ∧
      playingW.cached_audio_data = some [1, 2, 3] ∧
      envSeekFailP.from_data [1, 2, 3] = .ok srcW ∧ (0 : ℚ) < 10 ∧
      envSeekFailP.native_seek 10 = .error "unsupported") ∧
    (seek playingW envSeekFailP 0 10).2.2 = some SeekMethod.restart :=
  ⟨⟨rfl, rfl, rfl, by decide, rfl⟩,
   seek_native_failure_restarts playingW envSeekFailP 0 10 itemW [1, 2, 3] srcW
     "unsupported" rfl rfl rfl (by decide) rfl⟩

end Bloodin
